import Mathlib

/-!
Shallow embedding of the `parse_wiktionary_en` crate (semantic second-pass
parser for English Wiktionary articles) and verification of its spec claims.

The definitions below mirror the Rust source files `lib.rs`, `util.rs`,
`template.rs`, `definition.rs`, `inflection.rs`, `supplementary.rs`,
`pronunciation.rs`, `usage_notes.rs`, `pos.rs` and `language.rs`.
Mutable `Context` threading becomes explicit state passing; the Rust
`context.language.unwrap()` calls are modelled by `Option`-valued results
where `none` denotes a panic.  Sibling-consuming loops return the number of
consumed nodes exactly like the Rust functions do.
-/

namespace Wikt

/-- Identifier for a language (`lib.rs`, enum `Language`). -/
inductive Language where
  | cs | de | en | eo | es | fr | it | nl | pt | ru | sv
deriving DecidableEq, Repr

/-- Part of speech (`lib.rs`, enum `Pos`). -/
inductive Pos where
  | adjective | adverb | article | conjunction | interjection | noun | numeral
  | particle | phrase | preposition | pronoun | properNoun | verb
deriving DecidableEq, Repr

/-- Identifier for a kind of warning (`lib.rs`, enum `WarningMessage`). -/
inductive WarningMessage where
  | duplicate | empty | sectionEmpty | supplementary | unrecognized
  | valueConflicting | valueUnrecognized
deriving DecidableEq, Repr

/-- Warning from the parser (`lib.rs`, struct `Warning`). -/
structure Warning where
  end_ : Nat
  language : Option Language
  message : WarningMessage
  start : Nat
deriving DecidableEq, Repr

mutual
/-- Syntax node of the external wiki-markup parser (crate `parse_wiki_text`).
Variants the parsers of this crate never name are collapsed into `other`,
which still carries its byte span, mirroring the `_ =>` arms of the source. -/
inductive Node where
  | bold (start end_ : Nat)
  | characterEntity (character : Char) (start end_ : Nat)
  | definitionList (items : List ListItem) (start end_ : Nat)
  | heading (level : Nat) (nodes : List Node) (start end_ : Nat)
  | italic (start end_ : Nat)
  | link (target : String) (text : List Node) (start end_ : Nat)
  | orderedList (items : List ListItem) (start end_ : Nat)
  | tag (name : String) (nodes : List Node) (start end_ : Nat)
  | template (name : List Node) (parameters : List Parameter) (start end_ : Nat)
  | text (value : String) (start end_ : Nat)
  | unorderedList (items : List ListItem) (start end_ : Nat)
  | other (start end_ : Nat)

/-- A list item of the external parser (crate `parse_wiki_text`). -/
inductive ListItem where
  | mk (nodes : List Node) (start end_ : Nat)

/-- A template parameter of the external parser (crate `parse_wiki_text`). -/
inductive Parameter where
  | mk (name : Option (List Node)) (value : List Node) (start end_ : Nat)
end

/-- Byte offset where a node starts (trait `Positioned`). -/
def Node.start : Node → Nat
  | .bold s _ => s
  | .characterEntity _ s _ => s
  | .definitionList _ s _ => s
  | .heading _ _ s _ => s
  | .italic s _ => s
  | .link _ _ s _ => s
  | .orderedList _ s _ => s
  | .tag _ _ s _ => s
  | .template _ _ s _ => s
  | .text _ s _ => s
  | .unorderedList _ s _ => s
  | .other s _ => s

/-- Byte offset where a node ends (trait `Positioned`). -/
def Node.end_ : Node → Nat
  | .bold _ e => e
  | .characterEntity _ _ e => e
  | .definitionList _ _ e => e
  | .heading _ _ _ e => e
  | .italic _ e => e
  | .link _ _ _ e => e
  | .orderedList _ _ e => e
  | .tag _ _ _ e => e
  | .template _ _ _ e => e
  | .text _ _ e => e
  | .unorderedList _ _ e => e
  | .other _ e => e

/-- The nodes of a list item. -/
def ListItem.nodes : ListItem → List Node
  | .mk ns _ _ => ns

/-- Byte offset where a list item starts. -/
def ListItem.start : ListItem → Nat
  | .mk _ s _ => s

/-- Byte offset where a list item ends. -/
def ListItem.end_ : ListItem → Nat
  | .mk _ _ e => e

/-- The (optional) name nodes of a template parameter. -/
def Parameter.name : Parameter → Option (List Node)
  | .mk n _ _ _ => n

/-- The value nodes of a template parameter. -/
def Parameter.value : Parameter → List Node
  | .mk _ v _ _ => v

/-- Byte offset where a template parameter starts. -/
def Parameter.start : Parameter → Nat
  | .mk _ _ s _ => s

/-- Byte offset where a template parameter ends. -/
def Parameter.end_ : Parameter → Nat
  | .mk _ _ _ e => e

/-- Inline content element (`lib.rs`, enum `Flowing`). -/
inductive Flowing where
  | bold
  | definitionDate (value : String)
  | italic
  | labels (labels : List String)
  | link (target : String) (text : String)
  | nonGlossDefinition (value : List Flowing)
  | reference
  | term (language : String) (term : String)
  | text (value : String)
  | unknown (value : String)
  | unorderedList (items : List (List Flowing))

/-- Details about a template (`lib.rs`, struct `Template`).  The Rust
`HashMap` of named parameters is modelled as an association list whose
insert operation replaces the binding of an existing key. -/
structure Template where
  name : String
  named_parameters : List (String × String)
  unnamed_parameters : List String
deriving DecidableEq, Repr

/-- A single definition (`lib.rs`, struct `Definition`); an inductive since
the Rust struct is recursive through `definitions`. -/
inductive Definition where
  | mk (definition : List Flowing) (definitions : List Definition)
      (examples : Nat) (quotations : Nat)

/-- The inline content of a definition. -/
def Definition.definition : Definition → List Flowing
  | .mk d _ _ _ => d

/-- The nested sub-definitions of a definition. -/
def Definition.definitions : Definition → List Definition
  | .mk _ ds _ _ => ds

/-- The example count of a definition. -/
def Definition.examples : Definition → Nat
  | .mk _ _ e _ => e

/-- The quotation count of a definition. -/
def Definition.quotations : Definition → Nat
  | .mk _ _ _ q => q

/-- The entry for a part of speech (`lib.rs`, struct `PosEntry`). -/
structure PosEntry where
  antonyms : Bool
  definitions : List Definition
  derived_terms : Bool
  head : Option Template
  hypernyms : Bool
  hyponyms : Bool
  inflection : List Template
  pos : Pos
  related_terms : Bool
  synonyms : Bool
  translations : Bool
  usage_notes : Option (List Flowing)

/-- Details related to a specific etymology (`lib.rs`, struct `EtymologyEntry`). -/
structure EtymologyEntry where
  alternative_forms : Bool
  audio : Bool
  etymology : Bool
  homophones : Bool
  hyphenation : Bool
  ipa : Bool
  pos_entries : List PosEntry
  rhymes : Bool

/-- Dictionary entry for a single language (`lib.rs`, struct `LanguageEntry`). -/
structure LanguageEntry where
  anagrams : Bool
  etymology_entries : List EtymologyEntry
  etymology_entry : EtymologyEntry
  further_reading : Bool
  language : Language

/-- Output of parsing a page (`lib.rs`, struct `Output`). -/
structure Output where
  language_entries : List LanguageEntry
  warnings : List Warning

/-- Per-parse state (`util.rs`, struct `Context`). -/
structure Context where
  language : Option Language
  warnings : List Warning
  wiki_text : String
deriving DecidableEq, Repr

/-- `Language::from_name` (`lib.rs`). -/
def Language.from_name (name : String) : Option Language :=
  if name = "Czech" then some .cs
  else if name = "Dutch" then some .nl
  else if name = "English" then some .en
  else if name = "Esperanto" then some .eo
  else if name = "French" then some .fr
  else if name = "German" then some .de
  else if name = "Italian" then some .it
  else if name = "Portuguese" then some .pt
  else if name = "Russian" then some .ru
  else if name = "Spanish" then some .es
  else if name = "Swedish" then some .sv
  else none

/-- `Language::language_code` (`lib.rs`). -/
def Language.language_code : Language → String
  | .cs => "cs"
  | .nl => "nl"
  | .en => "en"
  | .eo => "eo"
  | .fr => "fr"
  | .de => "de"
  | .it => "it"
  | .pt => "pt"
  | .ru => "ru"
  | .es => "es"
  | .sv => "sv"

/-- Byte slice `&wiki_text[a..b]` of the source text.  The source text is
modelled as a sequence of units, slicing as take/drop. -/
def sliceStr (s : String) (a b : Nat) : String :=
  ((s.data.take b).drop a).asString

/-- `add_warning` (`util.rs`): append a warning built from the given span,
the current language and the message kind. -/
def add_warning (ctx : Context) (s e : Nat) (m : WarningMessage) : Context :=
  { ctx with warnings := ctx.warnings ++ [⟨e, ctx.language, m, s⟩] }

/-- `create_unknown` (`util.rs`): emit a warning and build an `Unknown`
placeholder carrying the exact source slice of the unknown node. -/
def create_unknown (ctx : Context) (u_s u_e w_s w_e : Nat)
    (m : WarningMessage) : Context × Flowing :=
  (add_warning ctx w_s w_e m, .unknown (sliceStr ctx.wiki_text u_s u_e))

/-- Flatten a single node to text if it is a text or character-entity node
(the closure inside `parse_text`, `util.rs`). -/
def flattenNode : Node → Option String
  | .characterEntity c _ _ => some (String.mk [c])
  | .text v _ _ => some v
  | _ => none

/-- `parse_text` (`util.rs`): flatten a short node sequence to plain text. -/
def parse_text (nodes : List Node) : Option String :=
  match nodes with
  | [] => some ""
  | [.text v _ _] => some v
  | _ => (nodes.mapM flattenNode).map String.join

/-- `parse_text_not_empty` (`util.rs`). -/
def parse_text_not_empty (nodes : List Node) : Option String :=
  match parse_text nodes with
  | none => none
  | some t => if t.isEmpty then none else some t

/-- `parse_parameter_name` (`util.rs`). -/
def parse_parameter_name (p : Parameter) : Option String :=
  match p.name with
  | some [.text v _ _] => some v
  | _ => none

/-- `parse_link` (`util.rs`). -/
def parse_link (ctx : Context) (n_s n_e : Nat) (target : String)
    (text : List Node) : Context × Flowing :=
  match parse_text text with
  | none => create_unknown ctx n_s n_e n_s n_e .unrecognized
  | some t => (ctx, .link target t)

/-- Key membership test of the named-parameter map (Rust `HashMap::contains_key`). -/
def containsName (m : List (String × String)) (k : String) : Bool :=
  m.any (fun p => p.1 == k)

/-- Insert into the named-parameter map (Rust `HashMap::insert`): the value
of an existing key is replaced, otherwise the binding is appended. -/
def insertName (m : List (String × String)) (k v : String) :
    List (String × String) :=
  match m with
  | [] => [(k, v)]
  | (k', v') :: rest =>
      if k' = k then (k, v) :: rest else (k', v') :: insertName rest k v

/-- Lookup in the named-parameter map (Rust `HashMap` indexing). -/
def lookupName (m : List (String × String)) (k : String) : Option String :=
  match m with
  | [] => none
  | (k', v') :: rest => if k' = k then some v' else lookupName rest k

/-- The parameter loop of `parse_template` (`template.rs`):
`none` in the second component models the early `return None`. -/
def tmpl_params (ctx : Context) (ps : List Parameter)
    (named : List (String × String)) (unnamed : List String) :
    Context × Option (List (String × String) × List String) :=
  match ps with
  | [] => (ctx, some (named, unnamed))
  | p :: rest =>
    match p.name with
    | none =>
      match parse_text p.value with
      | none => (add_warning ctx p.start p.end_ .valueUnrecognized, none)
      | some v => tmpl_params ctx rest named (unnamed ++ [v])
    | some _ =>
      match parse_parameter_name p with
      | none => (add_warning ctx p.start p.end_ .unrecognized, none)
      | some n =>
        let ctx1 := if containsName named n then
          add_warning ctx p.start p.end_ .duplicate else ctx
        match parse_text p.value with
        | none => (add_warning ctx1 p.start p.end_ .valueUnrecognized, none)
        | some v => tmpl_params ctx1 rest (insertName named n v) unnamed

/-- `parse_template` (`template.rs`): convert a template invocation into a
`Template` record, or reject it (`none`). -/
def parse_template (ctx : Context) (name : String)
    (parameters : List Parameter) : Context × Option Template :=
  match tmpl_params ctx parameters [] [] with
  | (ctx1, none) => (ctx1, none)
  | (ctx1, some (named, unnamed)) => (ctx1, some ⟨name, named, unnamed⟩)

/-- `parse_definition_date` (`definition.rs`). -/
def parse_definition_date (ctx : Context) (t_s t_e : Nat)
    (parameters : List Parameter) : Context × Flowing :=
  match parameters with
  | [.mk none value p_s p_e] =>
    match parse_text_not_empty value with
    | none => create_unknown ctx t_s t_e p_s p_e .valueUnrecognized
    | some v => (ctx, .definitionDate v)
  | _ => create_unknown ctx t_s t_e t_s t_e .valueUnrecognized

/-- The loop over the label parameters after the language code
(`definition.rs`, `parse_labels`, loop over `parameters[1..]`).  The spans
`lp_s`/`lp_e` are those of the language parameter, which the source uses as
the warning position for a named label parameter. -/
def labels_rest (ctx : Context) (t_s t_e lp_s lp_e : Nat)
    (ps : List Parameter) (labels : List String) : Context × Flowing :=
  match ps with
  | [] => (ctx, .labels labels)
  | p :: rest =>
    match p.name with
    | some _ => create_unknown ctx t_s t_e lp_s lp_e .unrecognized
    | none =>
      match parse_text_not_empty p.value with
      | none => create_unknown ctx t_s t_e p.start p.end_ .valueUnrecognized
      | some v =>
        if labels.contains v then
          labels_rest (add_warning ctx p.start p.end_ .duplicate)
            t_s t_e lp_s lp_e rest labels
        else labels_rest ctx t_s t_e lp_s lp_e rest (labels ++ [v])

/-- `parse_labels` (`definition.rs`).  `none` models the panic of
`context.language.unwrap()` when no language section is active. -/
def parse_labels (ctx : Context) (t_s t_e : Nat)
    (parameters : List Parameter) : Option (Context × Flowing) :=
  match parameters with
  | [] => some (create_unknown ctx t_s t_e t_s t_e .empty)
  | lp :: restp =>
    match lp.name with
    | some _ => some (create_unknown ctx t_s t_e lp.start lp.end_ .unrecognized)
    | none =>
      match parse_text lp.value with
      | none =>
        some (create_unknown ctx t_s t_e lp.start lp.end_ .valueUnrecognized)
      | some language =>
        match ctx.language with
        | none => none
        | some l =>
          if language ≠ l.language_code then
            some (create_unknown ctx t_s t_e lp.start lp.end_ .valueConflicting)
          else if restp.isEmpty then
            some (create_unknown ctx t_s t_e t_s t_e .empty)
          else
            some (labels_rest ctx t_s t_e lp.start lp.end_ restp [])

/-- The node mapping inside `parse_non_gloss_definition` (`definition.rs`). -/
def ngd_nodes (ctx : Context) (ns : List Node) : Context × List Flowing :=
  match ns with
  | [] => (ctx, [])
  | n :: rest =>
    let step :=
      match n with
      | .link target text s e => parse_link ctx s e target text
      | .text v _ _ => (ctx, Flowing.text v)
      | _ => create_unknown ctx n.start n.end_ n.start n.end_ .unrecognized
    let r := ngd_nodes step.1 rest
    (r.1, step.2 :: r.2)

/-- `parse_non_gloss_definition` (`definition.rs`). -/
def parse_non_gloss_definition (ctx : Context) (t_s t_e : Nat)
    (parameters : List Parameter) : Context × Flowing :=
  match parameters with
  | [.mk none value p_s p_e] =>
    if value.isEmpty then create_unknown ctx t_s t_e p_s p_e .empty
    else
      let r := ngd_nodes ctx value
      (r.1, .nonGlossDefinition r.2)
  | _ => create_unknown ctx t_s t_e t_s t_e .valueUnrecognized

mutual

/-- `parse_definition` (`definition.rs`): parse one ordered-list item into a
`Definition`.  `none` models a panic propagated from `parse_labels`. -/
def parse_definition (ctx : Context) (item : ListItem) :
    Option (Context × Definition) :=
  match item with
  | .mk ns i_s i_e =>
    match go_def ctx ns [] none 0 0 with
    | none => none
    | some (ctx1, defn, defs, ex, q) =>
      let ctx2 := if defn.isEmpty then add_warning ctx1 i_s i_e .empty else ctx1
      some (ctx2, .mk defn (defs.getD []) ex q)
termination_by sizeOf item
decreasing_by all_goals (simp_wf; try omega)

/-- The sibling loop of `parse_definition` (`definition.rs`): classify each
node of the list item, accumulating inline elements, the optional
sub-definition list, and the example/quotation counts. -/
def go_def (ctx : Context) (nodes : List Node) (defn : List Flowing)
    (defs : Option (List Definition)) (examples quotations : Nat) :
    Option (Context × List Flowing × Option (List Definition) × Nat × Nat) :=
  match nodes with
  | [] => some (ctx, defn, defs, examples, quotations)
  | .definitionList items s e :: rest =>
      go_def (add_warning ctx s e .supplementary) rest defn defs
        (examples + items.length) quotations
  | .italic _ _ :: rest =>
      go_def ctx rest (defn ++ [.italic]) defs examples quotations
  | .link target text s e :: rest =>
      let r := parse_link ctx s e target text
      go_def r.1 rest (defn ++ [r.2]) defs examples quotations
  | .orderedList items s e :: rest =>
      if defs.isSome then
        go_def (add_warning ctx s e .duplicate) rest defn (some [])
          examples quotations
      else
        match def_items ctx items with
        | none => none
        | some (ctx1, ds) => go_def ctx1 rest defn (some ds) examples quotations
  | .text v _ _ :: rest =>
      go_def ctx rest (defn ++ [.text v]) defs examples quotations
  | .template name parameters s e :: rest =>
      (match parse_text name with
       | some n =>
         if n = "defdate" then
           let r := parse_definition_date ctx s e parameters
           go_def r.1 rest (defn ++ [r.2]) defs examples quotations
         else if n = "label" ∨ n = "lb" then
           match parse_labels ctx s e parameters with
           | none => none
           | some (ctx1, f) =>
               go_def ctx1 rest (defn ++ [f]) defs examples quotations
         else if n = "n-g" ∨ n = "non-gloss definition" then
           let r := parse_non_gloss_definition ctx s e parameters
           go_def r.1 rest (defn ++ [r.2]) defs examples quotations
         else
           let r := create_unknown ctx s e s e .unrecognized
           go_def r.1 rest (defn ++ [r.2]) defs examples quotations
       | none =>
           let r := create_unknown ctx s e s e .unrecognized
           go_def r.1 rest (defn ++ [r.2]) defs examples quotations)
  | .unorderedList items s e :: rest =>
      go_def (add_warning ctx s e .supplementary) rest defn defs
        examples (quotations + items.length)
  | node :: rest =>
      let r := create_unknown ctx node.start node.end_ node.start node.end_
        .unrecognized
      go_def r.1 rest (defn ++ [r.2]) defs examples quotations
termination_by sizeOf nodes
decreasing_by all_goals (simp_wf; try omega)

/-- Parse each item of a nested ordered list (`definition.rs`, the
`items.iter().map(..).collect()` inside `parse_definition`). -/
def def_items (ctx : Context) (items : List ListItem) :
    Option (Context × List Definition) :=
  match items with
  | [] => some (ctx, [])
  | i :: rest =>
    match parse_definition ctx i with
    | none => none
    | some (ctx1, d) =>
      match def_items ctx1 rest with
      | none => none
      | some (ctx2, ds) => some (ctx2, d :: ds)
termination_by sizeOf items
decreasing_by all_goals (simp_wf; try omega)

end

/-- The sibling loop of `parse_inflection` (`inflection.rs`).  The slot
`inflection : Option (Option Template)` mirrors the Rust local: `some none`
is the explicitly nulled state after a duplicate.  `none` in the result
models the panic of `context.language.unwrap()`. -/
def infl_loop (ctx : Context) (nodes : List Node)
    (inflection : Option (Option Template)) (template_name : String) :
    Option (Context × Option (Option Template) × Nat) :=
  match nodes with
  | [] => some (ctx, inflection, 0)
  | .heading _ _ _ _ :: _ => some (ctx, inflection, 0)
  | .template name parameters s e :: rest =>
    (match parse_text name with
     | some n =>
       match ctx.language with
       | none => none
       | some l =>
         let code := l.language_code
         if code.data.isPrefixOf n.data ∧
             template_name.data.isPrefixOf (n.data.drop code.data.length)
         then
           if inflection.isSome then
             match infl_loop (add_warning ctx s e .duplicate) rest
                 (some none) template_name with
             | none => none
             | some (c, i, k) => some (c, i, k + 1)
           else
             let r := parse_template ctx n parameters
             match infl_loop r.1 rest (some r.2) template_name with
             | none => none
             | some (c, i, k) => some (c, i, k + 1)
         else
           match infl_loop (add_warning ctx s e .unrecognized) rest
               inflection template_name with
           | none => none
           | some (c, i, k) => some (c, i, k + 1)
     | none =>
       match infl_loop (add_warning ctx s e .unrecognized) rest
           inflection template_name with
       | none => none
       | some (c, i, k) => some (c, i, k + 1))
  | node :: rest =>
    match infl_loop (add_warning ctx node.start node.end_ .unrecognized) rest
        inflection template_name with
    | none => none
    | some (c, i, k) => some (c, i, k + 1)

/-- `parse_inflection` (`inflection.rs`). -/
def parse_inflection (ctx : Context) (h_s h_e : Nat) (nodes : List Node)
    (output : List Template) (template_name : String) :
    Option (Context × List Template × Nat) :=
  match infl_loop ctx nodes none template_name with
  | none => none
  | some (ctx1, inflection, n) =>
    match inflection with
    | none => some (add_warning ctx1 h_s h_e .sectionEmpty, output, n)
    | some none => some (ctx1, output, n)
    | some (some t) => some (ctx1, output ++ [t], n)

/-- The sibling loop of `parse_supplementary` (`supplementary.rs`). -/
def supp_loop (ctx : Context) (nodes : List Node) : Context × Nat :=
  match nodes with
  | [] => (ctx, 0)
  | .heading _ _ _ _ :: _ => (ctx, 0)
  | node :: rest =>
    let r := supp_loop (add_warning ctx node.start node.end_ .supplementary)
      rest
    (r.1, r.2 + 1)

/-- `parse_supplementary` (`supplementary.rs`). -/
def parse_supplementary (ctx : Context) (h_s h_e : Nat) (nodes : List Node)
    (output : Bool) : Context × Bool × Nat :=
  let ctx1 := if output then add_warning ctx h_s h_e .duplicate else ctx
  let r := supp_loop ctx1 nodes
  (r.1, true, r.2)

/-- Pronunciation flags (`pronunciation.rs`, struct `Pronunciation`). -/
structure Pronunciation where
  audio : Bool := false
  homophones : Bool := false
  hyphenation : Bool := false
  ipa : Bool := false
  rhymes : Bool := false
deriving DecidableEq, Repr

/-- The template matching inside the list scan of `parse_pronunciation`
(`pronunciation.rs`). -/
def pron_template (pron : Pronunciation) (node : Node) : Pronunciation :=
  match node with
  | .template name _ _ _ =>
    (match parse_text name with
     | some n =>
       if n = "IPA" ∨ n = "cs-IPA" then { pron with ipa := true }
       else if n = "audio" then { pron with audio := true }
       else if n = "homophones" then { pron with homophones := true }
       else if n = "hyphenation" then { pron with hyphenation := true }
       else if n = "rhymes" then { pron with rhymes := true }
       else pron
     | none => pron)
  | _ => pron

/-- Scan the items of an unordered list for pronunciation templates
(`pronunciation.rs`). -/
def pron_items (pron : Pronunciation) (items : List ListItem) :
    Pronunciation :=
  items.foldl (fun p i => i.nodes.foldl pron_template p) pron

/-- The sibling loop of `parse_pronunciation` (`pronunciation.rs`). -/
def pron_loop (ctx : Context) (nodes : List Node) (has_list : Bool)
    (pron : Pronunciation) : Context × Bool × Pronunciation × Nat :=
  match nodes with
  | [] => (ctx, has_list, pron, 0)
  | .heading _ _ _ _ :: _ => (ctx, has_list, pron, 0)
  | .unorderedList items s e :: rest =>
    let ctx1 := if has_list then add_warning ctx s e .duplicate else ctx
    let r := pron_loop ctx1 rest true (pron_items pron items)
    (r.1, r.2.1, r.2.2.1, r.2.2.2 + 1)
  | node :: rest =>
    let r := pron_loop (add_warning ctx node.start node.end_ .unrecognized)
      rest has_list pron
    (r.1, r.2.1, r.2.2.1, r.2.2.2 + 1)

/-- `parse_pronunciation` (`pronunciation.rs`). -/
def parse_pronunciation (ctx : Context) (h_s h_e : Nat) (nodes : List Node)
    (output : Option Pronunciation) : Context × Option Pronunciation × Nat :=
  let ctx1 := if output.isSome then add_warning ctx h_s h_e .duplicate else ctx
  let pron := output.getD {}
  let r := pron_loop ctx1 nodes false pron
  let ctx2 := if !r.2.1 then add_warning r.1 h_s h_e .sectionEmpty else r.1
  (ctx2, some r.2.2.1, r.2.2.2)

/-- `parse_template_term` (`usage_notes.rs`). -/
def parse_template_term (ctx : Context) (t_s t_e : Nat)
    (parameters : List Parameter) : Context × Flowing :=
  match parameters with
  | [.mk none lval l_s l_e, .mk none tval m_s m_e] =>
    (match parse_text_not_empty lval with
     | none => create_unknown ctx t_s t_e l_s l_e .valueUnrecognized
     | some language =>
       match parse_text_not_empty tval with
       | none => create_unknown ctx t_s t_e m_s m_e .valueUnrecognized
       | some term => (ctx, .term language term))
  | _ => create_unknown ctx t_s t_e t_s t_e .valueUnrecognized

/-- Classify one node into a `Flowing` element; this is the per-node body
shared by the main loop of `parse_usage_notes` and its unordered-list item
mapping (`usage_notes.rs`), which repeat the same arms verbatim. -/
def un_item_node (ctx : Context) (node : Node) : Context × Flowing :=
  match node with
  | .bold _ _ => (ctx, .bold)
  | .italic _ _ => (ctx, .italic)
  | .link target text s e => parse_link ctx s e target text
  | .tag name _ s e =>
    if name = "ref" then (add_warning ctx s e .supplementary, .reference)
    else create_unknown ctx s e s e .unrecognized
  | .template name parameters s e =>
    (match parse_text name with
     | some n =>
       if n = "l" ∨ n = "m" then parse_template_term ctx s e parameters
       else create_unknown ctx s e s e .unrecognized
     | none => create_unknown ctx s e s e .unrecognized)
  | .text v _ _ => (ctx, .text v)
  | _ => create_unknown ctx node.start node.end_ node.start node.end_
      .unrecognized

/-- Map the nodes of one unordered-list item (`usage_notes.rs`). -/
def un_item_nodes (ctx : Context) (ns : List Node) : Context × List Flowing :=
  match ns with
  | [] => (ctx, [])
  | n :: rest =>
    let r := un_item_node ctx n
    let r1 := un_item_nodes r.1 rest
    (r1.1, r.2 :: r1.2)

/-- The `filter_map` over unordered-list items in `parse_usage_notes`
(`usage_notes.rs`): an item with no nodes is `Empty` and dropped. -/
def un_items (ctx : Context) (items : List ListItem) :
    Context × List (List Flowing) :=
  match items with
  | [] => (ctx, [])
  | i :: rest =>
    if i.nodes.isEmpty then
      un_items (add_warning ctx i.start i.end_ .empty) rest
    else
      let r := un_item_nodes ctx i.nodes
      let r1 := un_items r.1 rest
      (r1.1, r.2 :: r1.2)

/-- The sibling loop of `parse_usage_notes` (`usage_notes.rs`). -/
def un_loop (ctx : Context) (nodes : List Node) (notes : List Flowing) :
    Context × List Flowing × Nat :=
  match nodes with
  | [] => (ctx, notes, 0)
  | .heading _ _ _ _ :: _ => (ctx, notes, 0)
  | .unorderedList items _ _ :: rest =>
    let r := un_items ctx items
    let notes1 := if r.2.isEmpty then notes
      else notes ++ [Flowing.unorderedList r.2]
    let r1 := un_loop r.1 rest notes1
    (r1.1, r1.2.1, r1.2.2 + 1)
  | node :: rest =>
    let r := un_item_node ctx node
    let r1 := un_loop r.1 rest (notes ++ [r.2])
    (r1.1, r1.2.1, r1.2.2 + 1)

/-- `parse_usage_notes` (`usage_notes.rs`).  The out-slot
`Option (Option (List Flowing))` mirrors the Rust `&mut Option<Option<..>>`:
outer `some` means the subsection was seen, inner `none` means it yielded
no content (or was a duplicate). -/
def parse_usage_notes (ctx : Context) (h_s h_e : Nat) (nodes : List Node)
    (output : Option (Option (List Flowing))) :
    Context × Option (Option (List Flowing)) × Nat :=
  if output.isSome then
    (add_warning ctx h_s h_e .duplicate, some none, 0)
  else
    let r := un_loop ctx nodes []
    if r.2.1.isEmpty then
      (add_warning r.1 h_s h_e .sectionEmpty, some none, r.2.2)
    else (r.1, some (some r.2.1), r.2.2)

/-- `check_head_template_name` (`pos.rs`). -/
def check_head_template_name (language : Language) (template_name : String) :
    Bool :=
  match language, template_name with
  | _, "head" => true
  | .cs, "cs-adj" => true
  | .cs, "cs-adv" => true
  | .cs, "cs-noun" => true
  | .cs, "cs-proper noun" => true
  | .de, "de-adj" => true
  | .de, "de-adv" => true
  | .de, "de-noun" => true
  | .de, "de-proper noun" => true
  | .de, "de-verb-strong" => true
  | .de, "de-verb-weak" => true
  | .en, "en-adj" => true
  | .en, "en-noun" => true
  | .en, "en-proper noun" => true
  | .en, "en-verb" => true
  | .es, "es-adj" => true
  | .es, "es-adv" => true
  | .es, "es-noun" => true
  | .sv, "sv-adj" => true
  | .sv, "sv-adv" => true
  | .sv, "sv-noun" => true
  | .sv, "sv-proper noun" => true
  | .sv, "sv-verb-reg" => true
  | _, _ => false

/-- The part-of-speech heading names and their tags, as listed in the
`module!` invocation at the bottom of `language.rs`. -/
def pos_from_name (s : String) : Option Pos :=
  if s = "Adjective" then some .adjective
  else if s = "Adverb" then some .adverb
  else if s = "Article" then some .article
  else if s = "Conjunction" then some .conjunction
  else if s = "Interjection" then some .interjection
  else if s = "Noun" then some .noun
  else if s = "Numeral" then some .numeral
  else if s = "Particle" then some .particle
  else if s = "Phrase" then some .phrase
  else if s = "Preposition" then some .preposition
  else if s = "Pronoun" then some .pronoun
  else if s = "Proper noun" then some .properNoun
  else if s = "Verb" then some .verb
  else none

/-- Phase 1 of `parse_pos` (`pos.rs`): scan until the next heading for the
head template and the ordered list of definitions.  `none` models a panic
(of the `unwrap` of the current language, or one from `parse_definition`). -/
def pos_phase1 (ctx : Context) (nodes : List Node)
    (defs : Option (List Definition)) (head : Option (Option Template)) :
    Option (Context × Option (List Definition) × Option (Option Template) × Nat) :=
  match nodes with
  | [] => some (ctx, defs, head, 0)
  | .heading _ _ _ _ :: _ => some (ctx, defs, head, 0)
  | .template name parameters s e :: rest =>
    (match parse_text name with
     | some n =>
       match ctx.language with
       | none => none
       | some l =>
         if check_head_template_name l n then
           if head.isSome then
             match pos_phase1 (add_warning ctx s e .duplicate) rest defs
                 (some none) with
             | none => none
             | some (c, d, h, k) => some (c, d, h, k + 1)
           else
             let r := parse_template ctx n parameters
             match pos_phase1 r.1 rest defs (some r.2) with
             | none => none
             | some (c, d, h, k) => some (c, d, h, k + 1)
         else
           match pos_phase1 (add_warning ctx s e .unrecognized) rest defs
               head with
           | none => none
           | some (c, d, h, k) => some (c, d, h, k + 1)
     | none =>
       match pos_phase1 (add_warning ctx s e .unrecognized) rest defs head with
       | none => none
       | some (c, d, h, k) => some (c, d, h, k + 1))
  | .orderedList items s e :: rest =>
    if defs.isSome then
      match pos_phase1 (add_warning ctx s e .duplicate) rest (some []) head with
      | none => none
      | some (c, d, h, k) => some (c, d, h, k + 1)
    else
      match def_items ctx items with
      | none => none
      | some (ctx1, ds) =>
        match pos_phase1 ctx1 rest (some ds) head with
        | none => none
        | some (c, d, h, k) => some (c, d, h, k + 1)
  | node :: rest =>
    match pos_phase1 (add_warning ctx node.start node.end_ .unrecognized) rest
        defs head with
    | none => none
    | some (c, d, h, k) => some (c, d, h, k + 1)

/-- Accumulator of phase 2 of `parse_pos` (`pos.rs`), one field per local
variable of the Rust function. -/
structure PosAcc where
  antonyms : Bool := false
  derived_terms : Bool := false
  hypernyms : Bool := false
  hyponyms : Bool := false
  inflection : List Template := []
  related_terms : Bool := false
  synonyms : Bool := false
  translations : Bool := false
  usage_notes : Option (Option (List Flowing)) := none

/-- Result of one iteration of a heading-dispatch loop: either the loop
breaks (a heading of lower level), or it continues with the new context,
the number of extra nodes consumed by a dispatched subsection parser, and
the updated accumulator. -/
inductive StepRes (α : Type) where
  | stop
  | go (ctx : Context) (consumed : Nat) (acc : α)

/-- One iteration of phase 2 of `parse_pos` (`pos.rs`): dispatch a single
sibling node (the body of the Rust `while` loop).  `none` models a panic. -/
def pos_step (ctx : Context) (node : Node) (rest : List Node)
    (heading_level : Nat) (acc : PosAcc) : Option (StepRes PosAcc) :=
  match node with
  | .heading level hnodes s e =>
    if level ≤ heading_level then
      if level < heading_level then some .stop
      else
        match parse_text hnodes with
        | some t =>
          if t = "Antonyms" then
            let r := parse_supplementary ctx s e rest acc.antonyms
            some (.go r.1 r.2.2 { acc with antonyms := r.2.1 })
          else if t = "Conjugation" then
            match parse_inflection ctx s e rest acc.inflection "-conj-" with
            | none => none
            | some (ctx1, infl, n) =>
              some (.go ctx1 n { acc with inflection := infl })
          else if t = "Declension" then
            match parse_inflection ctx s e rest acc.inflection "-decl-" with
            | none => none
            | some (ctx1, infl, n) =>
              some (.go ctx1 n { acc with inflection := infl })
          else if t = "Derived terms" then
            let r := parse_supplementary ctx s e rest acc.derived_terms
            some (.go r.1 r.2.2 { acc with derived_terms := r.2.1 })
          else if t = "Hypernyms" then
            let r := parse_supplementary ctx s e rest acc.hypernyms
            some (.go r.1 r.2.2 { acc with hypernyms := r.2.1 })
          else if t = "Hyponyms" then
            let r := parse_supplementary ctx s e rest acc.hyponyms
            some (.go r.1 r.2.2 { acc with hyponyms := r.2.1 })
          else if t = "Related terms" then
            let r := parse_supplementary ctx s e rest acc.related_terms
            some (.go r.1 r.2.2 { acc with related_terms := r.2.1 })
          else if t = "Synonyms" then
            let r := parse_supplementary ctx s e rest acc.synonyms
            some (.go r.1 r.2.2 { acc with synonyms := r.2.1 })
          else if t = "Translations" then
            let r := parse_supplementary ctx s e rest acc.translations
            some (.go r.1 r.2.2 { acc with translations := r.2.1 })
          else if t = "Usage notes" then
            let r := parse_usage_notes ctx s e rest acc.usage_notes
            some (.go r.1 r.2.2 { acc with usage_notes := r.2.1 })
          else some (.go (add_warning ctx s e .unrecognized) 0 acc)
        | none => some (.go (add_warning ctx s e .unrecognized) 0 acc)
    else some (.go (add_warning ctx s e .unrecognized) 0 acc)
  | _ => some (.go (add_warning ctx node.start node.end_ .unrecognized) 0 acc)

/-- Phase 2 of `parse_pos` (`pos.rs`): scan the same-or-deeper subsection
headings and dispatch to the leaf parsers, one `pos_step` per iteration. -/
def pos_phase2 (ctx : Context) (nodes : List Node) (heading_level : Nat)
    (acc : PosAcc) : Option (Context × PosAcc × Nat) :=
  match nodes with
  | [] => some (ctx, acc, 0)
  | node :: rest =>
    match pos_step ctx node rest heading_level acc with
    | none => none
    | some .stop => some (ctx, acc, 0)
    | some (.go ctx1 n acc1) =>
      match pos_phase2 ctx1 (rest.drop n) heading_level acc1 with
      | none => none
      | some (c, a, k) => some (c, a, k + 1 + n)
termination_by nodes.length
decreasing_by all_goals (simp [List.length_drop]; try omega)

/-- `parse_pos` (`pos.rs`). -/
def parse_pos (ctx : Context) (h_s h_e : Nat) (nodes : List Node)
    (pos_entries : List PosEntry) (heading_level : Nat) (pos : Pos) :
    Option (Context × List PosEntry × Nat) :=
  let ctx0 := if pos_entries.any (fun en => en.pos == pos) then
    add_warning ctx h_s h_e .duplicate else ctx
  match pos_phase1 ctx0 nodes none none with
  | none => none
  | some (ctx1, defs, head, n1) =>
    let ctx2 := if defs.isNone then add_warning ctx1 h_s h_e .sectionEmpty
      else ctx1
    match pos_phase2 ctx2 (nodes.drop n1) heading_level {} with
    | none => none
    | some (ctx3, acc, n2) =>
      some (ctx3,
        pos_entries ++ [{
          antonyms := acc.antonyms
          definitions := defs.getD []
          derived_terms := acc.derived_terms
          head := head.getD none
          hypernyms := acc.hypernyms
          hyponyms := acc.hyponyms
          inflection := acc.inflection
          pos := pos
          related_terms := acc.related_terms
          synonyms := acc.synonyms
          translations := acc.translations
          usage_notes := acc.usage_notes.getD none }],
        n1 + n2)

/-- The pre-heading loop of `parse_etymology` (`language.rs`): every node
before the first heading is `Supplementary` and sets the etymology flag. -/
def ety_pre (ctx : Context) (nodes : List Node) (etymology : Bool) :
    Context × Bool × Nat :=
  match nodes with
  | [] => (ctx, etymology, 0)
  | .heading _ _ _ _ :: _ => (ctx, etymology, 0)
  | node :: rest =>
    let r := ety_pre (add_warning ctx node.start node.end_ .supplementary)
      rest true
    (r.1, r.2.1, r.2.2 + 1)

/-- Accumulator of the dispatch loop of `parse_etymology` (`language.rs`). -/
structure EtyAcc where
  alternative_forms : Bool := false
  pos_entries : List PosEntry := []
  pronunciation : Option Pronunciation := none

/-- One iteration of the dispatch loop of `parse_etymology`
(`language.rs`): level-4 subsection headings inside a numbered etymology
section. -/
def ety_step (ctx : Context) (node : Node) (rest : List Node)
    (acc : EtyAcc) : Option (StepRes EtyAcc) :=
  match node with
  | .heading level hnodes s e =>
    if level < 5 then
      if level < 4 then some .stop
      else
        match parse_text hnodes with
        | some t =>
          if t = "Alternative forms" then
            let r := parse_supplementary ctx s e rest acc.alternative_forms
            some (.go r.1 r.2.2 { acc with alternative_forms := r.2.1 })
          else if t = "Pronunciation" then
            let r := parse_pronunciation ctx s e rest acc.pronunciation
            some (.go r.1 r.2.2 { acc with pronunciation := r.2.1 })
          else
            match pos_from_name t with
            | some pos =>
              match parse_pos ctx s e rest acc.pos_entries 5 pos with
              | none => none
              | some (ctx1, entries, n) =>
                some (.go ctx1 n { acc with pos_entries := entries })
            | none => some (.go (add_warning ctx s e .unrecognized) 0 acc)
        | none => some (.go (add_warning ctx s e .unrecognized) 0 acc)
    else some (.go (add_warning ctx s e .unrecognized) 0 acc)
  | _ => some (.go (add_warning ctx node.start node.end_ .unrecognized) 0 acc)

/-- The dispatch loop of `parse_etymology` (`language.rs`), one `ety_step`
per iteration. -/
def ety_loop (ctx : Context) (nodes : List Node) (acc : EtyAcc) :
    Option (Context × EtyAcc × Nat) :=
  match nodes with
  | [] => some (ctx, acc, 0)
  | node :: rest =>
    match ety_step ctx node rest acc with
    | none => none
    | some .stop => some (ctx, acc, 0)
    | some (.go ctx1 n acc1) =>
      match ety_loop ctx1 (rest.drop n) acc1 with
      | none => none
      | some (c, a, k) => some (c, a, k + 1 + n)
termination_by nodes.length
decreasing_by all_goals (simp [List.length_drop]; try omega)

/-- `parse_etymology` (`language.rs`): parse one numbered etymology section
and append its `EtymologyEntry` to the output list. -/
def parse_etymology (ctx : Context) (h_s h_e : Nat) (nodes : List Node)
    (output : List EtymologyEntry) :
    Option (Context × List EtymologyEntry × Nat) :=
  let r0 := ety_pre ctx nodes false
  match ety_loop r0.1 (nodes.drop r0.2.2) {} with
  | none => none
  | some (ctx1, acc, n2) =>
    let ctx2 := if acc.pos_entries.isEmpty then
      add_warning ctx1 h_s h_e .sectionEmpty else ctx1
    let pron := acc.pronunciation.getD {}
    some (ctx2,
      output ++ [{
        alternative_forms := acc.alternative_forms
        audio := pron.audio
        etymology := r0.2.1
        homophones := pron.homophones
        hyphenation := pron.hyphenation
        ipa := pron.ipa
        pos_entries := acc.pos_entries
        rhymes := pron.rhymes }],
      r0.2.2 + n2)

/-- Accumulator of the dispatch loop of `parse_language` (`language.rs`). -/
structure LangAcc where
  alternative_forms : Bool := false
  anagrams : Bool := false
  etymology : Bool := false
  etymology_entries : List EtymologyEntry := []
  further_reading : Bool := false
  pos_entries : List PosEntry := []
  pronunciation : Option Pronunciation := none

/-- One iteration of the dispatch loop of `parse_language`
(`language.rs`): level-3 subsection headings inside a language section. -/
def lang_step (ctx : Context) (node : Node) (rest : List Node)
    (acc : LangAcc) : Option (StepRes LangAcc) :=
  match node with
  | .heading level hnodes s e =>
    if level < 4 then
      if level < 3 then some .stop
      else
        match parse_text hnodes with
        | some t =>
          if t = "Alternative forms" then
            let r := parse_supplementary ctx s e rest acc.alternative_forms
            some (.go r.1 r.2.2 { acc with alternative_forms := r.2.1 })
          else if t = "Anagrams" then
            let r := parse_supplementary ctx s e rest acc.anagrams
            some (.go r.1 r.2.2 { acc with anagrams := r.2.1 })
          else if t = "Etymology" then
            let r := parse_supplementary ctx s e rest acc.etymology
            some (.go r.1 r.2.2 { acc with etymology := r.2.1 })
          else if t = "Etymology 1" ∨ t = "Etymology 2" ∨ t = "Etymology 3"
              ∨ t = "Etymology 4" then
            match parse_etymology ctx s e rest acc.etymology_entries with
            | none => none
            | some (ctx1, entries, n) =>
              some (.go ctx1 n { acc with etymology_entries := entries })
          else if t = "Further reading" then
            let r := parse_supplementary ctx s e rest acc.further_reading
            some (.go r.1 r.2.2 { acc with further_reading := r.2.1 })
          else if t = "Pronunciation" then
            let r := parse_pronunciation ctx s e rest acc.pronunciation
            some (.go r.1 r.2.2 { acc with pronunciation := r.2.1 })
          else
            match pos_from_name t with
            | some pos =>
              match parse_pos ctx s e rest acc.pos_entries 4 pos with
              | none => none
              | some (ctx1, entries, n) =>
                some (.go ctx1 n { acc with pos_entries := entries })
            | none => some (.go (add_warning ctx s e .unrecognized) 0 acc)
        | none => some (.go (add_warning ctx s e .unrecognized) 0 acc)
    else some (.go (add_warning ctx s e .unrecognized) 0 acc)
  | .template name _ s e =>
    (match parse_text name with
     | some n =>
       if n = "number box" ∨ n = "was fwotd" ∨ n = "was wotd"
           ∨ n = "wikipedia" then
         some (.go (add_warning ctx s e .supplementary) 0 acc)
       else some (.go (add_warning ctx s e .unrecognized) 0 acc)
     | none => some (.go (add_warning ctx s e .unrecognized) 0 acc))
  | _ => some (.go (add_warning ctx node.start node.end_ .unrecognized) 0 acc)

/-- The dispatch loop of `parse_language` (`language.rs`), one `lang_step`
per iteration. -/
def lang_loop (ctx : Context) (nodes : List Node) (acc : LangAcc) :
    Option (Context × LangAcc × Nat) :=
  match nodes with
  | [] => some (ctx, acc, 0)
  | node :: rest =>
    match lang_step ctx node rest acc with
    | none => none
    | some .stop => some (ctx, acc, 0)
    | some (.go ctx1 n acc1) =>
      match lang_loop ctx1 (rest.drop n) acc1 with
      | none => none
      | some (c, a, k) => some (c, a, k + 1 + n)
termination_by nodes.length
decreasing_by all_goals (simp [List.length_drop]; try omega)

/-- `parse_language` (`language.rs`): parse one language section, warn
`Duplicate` when an entry for the same language already exists, and push
the new `LanguageEntry` unconditionally. -/
def parse_language (ctx : Context) (h_s h_e : Nat) (nodes : List Node)
    (language_entries : List LanguageEntry) (language : Language) :
    Option (Context × List LanguageEntry × Nat) :=
  let ctx0 := if language_entries.any (fun en => en.language == language) then
    add_warning ctx h_s h_e .duplicate else ctx
  match lang_loop ctx0 nodes {} with
  | none => none
  | some (ctx1, acc, n) =>
    let ctx2 := if acc.pos_entries.isEmpty ∧ acc.etymology_entries.isEmpty
      then add_warning ctx1 h_s h_e .sectionEmpty else ctx1
    let pron := acc.pronunciation.getD {}
    some (ctx2,
      language_entries ++ [{
        anagrams := acc.anagrams
        etymology_entries := acc.etymology_entries
        etymology_entry := {
          alternative_forms := acc.alternative_forms
          audio := pron.audio
          etymology := acc.etymology
          homophones := pron.homophones
          hyphenation := pron.hyphenation
          ipa := pron.ipa
          pos_entries := acc.pos_entries
          rhymes := pron.rhymes }
        further_reading := acc.further_reading
        language := language }],
      n)

/-- Result of one iteration of the top-level loop of `parse` (`lib.rs`):
the loop either halts (the `break` statements) with the current context, or
continues. -/
inductive TopStep where
  | halt (ctx : Context)
  | go (ctx : Context) (consumed : Nat) (entries : List LanguageEntry)

/-- One iteration of the top-level loop of `parse` (`lib.rs`). -/
def parse_step (ctx : Context) (node : Node) (rest : List Node)
    (entries : List LanguageEntry) : Option TopStep :=
  match node with
  | .heading level hnodes s e =>
    if level < 3 then
      if level < 2 then some (.halt (add_warning ctx s e .unrecognized))
      else
        match parse_text hnodes with
        | some t =>
          (match Language.from_name t with
           | some language =>
             let ctx1 := { ctx with language := some language }
             match parse_language ctx1 s e rest entries language with
             | none => none
             | some (ctx2, entries1, n) =>
               some (.go { ctx2 with language := none } n entries1)
           | none => some (.go (add_warning ctx s e .unrecognized) 0 entries))
        | none => some (.go (add_warning ctx s e .unrecognized) 0 entries)
    else some (.go (add_warning ctx s e .unrecognized) 0 entries)
  | .template name _ s e =>
    (match parse_text name with
     | some n =>
       if n = "also" then
         some (.go (add_warning ctx s e .supplementary) 0 entries)
       else some (.go (add_warning ctx s e .unrecognized) 0 entries)
     | none => some (.go (add_warning ctx s e .unrecognized) 0 entries))
  | _ =>
    some (.go (add_warning ctx node.start node.end_ .unrecognized) 0 entries)

/-- The top-level loop of `parse` (`lib.rs`): walk the level-2 headings,
one `parse_step` per iteration. -/
def parse_loop (ctx : Context) (entries : List LanguageEntry)
    (nodes : List Node) : Option (Context × List LanguageEntry) :=
  match nodes with
  | [] => some (ctx, entries)
  | node :: rest =>
    match parse_step ctx node rest entries with
    | none => none
    | some (.halt ctx1) => some (ctx1, entries)
    | some (.go ctx1 n entries1) => parse_loop ctx1 entries1 (rest.drop n)
termination_by nodes.length
decreasing_by all_goals (simp [List.length_drop]; try omega)

/-- `parse` (`lib.rs`): the entry point.  `none` models a panic, which claim
C6 shows cannot happen. -/
def parse (wiki_text : String) (nodes : List Node) : Option Output :=
  match parse_loop ⟨none, [], wiki_text⟩ [] nodes with
  | none => none
  | some (ctx, entries) => some ⟨entries, ctx.warnings⟩

/-!  Invariant infrastructure: every parsing function leaves the source text
and the active language of the context unchanged and only appends warnings;
the `Option`-valued parsers succeed whenever a language is active. -/

/-- `b` is `a` with the same language and source text and possibly more
warnings appended.  Every parsing function maps its context to an extension
of it. -/
def Extends (b a : Context) : Prop :=
  b.language = a.language ∧ b.wiki_text = a.wiki_text ∧
    ∃ w, b.warnings = a.warnings ++ w

/-- The context of a `go` step extends the input context. -/
def StepExtends {α : Type} : StepRes α → Context → Prop
  | .stop, _ => True
  | .go ctx1 _ _, ctx => Extends ctx1 ctx

/-- Number of warnings of a given kind in a warning list. -/
def countMsg (ws : List Warning) (m : WarningMessage) : Nat :=
  (ws.filter (fun w => w.message == m)).length

/-- A template parameter is well-shaped for the general template parser
(spec 4.9): an unnamed parameter flattens to text; a named parameter has a
single-text-node name and a flattenable value. -/
def paramShapeOk (p : Parameter) : Bool :=
  match p.name with
  | none => (parse_text p.value).isSome
  | some _ => (parse_parameter_name p).isSome && (parse_text p.value).isSome

/-- The flattened value of the last parameter in the list whose resolved
name is `k` (used to state the last-occurrence-wins law of claim C7). -/
def lastNamed (ps : List Parameter) (k : String) : Option String :=
  match ps with
  | [] => none
  | p :: rest =>
    match lastNamed rest k with
    | some v => some v
    | none =>
      match p.name with
      | none => none
      | some _ =>
        match parse_parameter_name p, parse_text p.value with
        | some k2, some v => if k2 = k then some v else none
        | _, _ => none

/-- Membership of a name in the list of already-seen parameter names. -/
def seenHas (seen : List String) (k : String) : Bool :=
  seen.any (fun x => x == k)

/-- The number of named parameters whose resolved name repeats an earlier
resolved name, given the names already seen (claim C7: one Duplicate
warning per repeat). -/
def dupCount (ps : List Parameter) (seen : List String) : Nat :=
  match ps with
  | [] => 0
  | p :: rest =>
    match p.name with
    | none => dupCount rest seen
    | some _ =>
      match parse_parameter_name p with
      | none => dupCount rest seen
      | some k =>
        (if seenHas seen k then 1 else 0) +
          dupCount rest (if seenHas seen k then seen else seen ++ [k])

/-- Pointwise order on pronunciation flags: `b` has every flag of `a`. -/
def pronLe (a b : Pronunciation) : Prop :=
  a.audio ≤ b.audio ∧ a.homophones ≤ b.homophones ∧
    a.hyphenation ≤ b.hyphenation ∧ a.ipa ≤ b.ipa ∧ a.rhymes ≤ b.rhymes

/-- The run of sibling nodes a leaf section parser scans: everything before
the first heading (claim C3 statement helper). -/
def beforeHeading : List Node → List Node
  | [] => []
  | .heading _ _ _ _ :: _ => []
  | node :: rest => node :: beforeHeading rest

/-- Whether a node is a template whose name starts with the given
language's code immediately followed by the marker string — the match
condition of `parse_inflection` (claim C3 statement helper). -/
def inflMatches (l : Language) (tn : String) : Node → Bool
  | .template name _ _ _ =>
    (match parse_text name with
     | some n =>
       l.language_code.data.isPrefixOf n.data &&
         tn.data.isPrefixOf (n.data.drop l.language_code.data.length)
     | none => false)
  | _ => false

theorem extends_rfl {a : Context} : Extends a a :=
  ⟨rfl, rfl, [], by simp⟩

theorem extends_trans {a b c : Context} (h1 : Extends b a)
    (h2 : Extends c b) : Extends c a := by
  obtain ⟨e1, t1, w1, hw1⟩ := h1
  obtain ⟨e2, t2, w2, hw2⟩ := h2
  exact ⟨e2.trans e1, t2.trans t1, w1 ++ w2, by simp [hw2, hw1]⟩

theorem add_warning_extends {ctx : Context} {s e : Nat} {m : WarningMessage} :
    Extends (add_warning ctx s e m) ctx :=
  ⟨rfl, rfl, [⟨e, ctx.language, m, s⟩], rfl⟩

theorem ite_extends {c : Prop} [Decidable c] {ctx a b : Context}
    (ha : Extends a ctx) (hb : Extends b ctx) :
    Extends (if c then a else b) ctx := by
  split
  · exact ha
  · exact hb

theorem create_unknown_extends {ctx : Context} {u_s u_e w_s w_e : Nat}
    {m : WarningMessage} : Extends (create_unknown ctx u_s u_e w_s w_e m).1 ctx :=
  add_warning_extends

theorem parse_link_extends {ctx : Context} {n_s n_e : Nat} {target : String}
    {text : List Node} : Extends (parse_link ctx n_s n_e target text).1 ctx := by
  unfold parse_link
  cases parse_text text
  · exact create_unknown_extends
  · exact extends_rfl

theorem tmpl_params_extends {ps : List Parameter} : ∀ {ctx : Context}
    {named : List (String × String)} {unnamed : List String},
    Extends (tmpl_params ctx ps named unnamed).1 ctx := by
  induction ps with
  | nil => intro ctx named unnamed; exact extends_rfl
  | cons p rest ih =>
    intro ctx named unnamed
    unfold tmpl_params
    split
    · split
      · exact add_warning_extends
      · exact ih
    · split
      · exact add_warning_extends
      · split
        · split
          · exact extends_trans add_warning_extends add_warning_extends
          · exact extends_trans add_warning_extends ih
        · split
          · exact add_warning_extends
          · exact ih

theorem parse_template_extends {ctx : Context} {name : String}
    {ps : List Parameter} : Extends (parse_template ctx name ps).1 ctx := by
  unfold parse_template
  have h := @tmpl_params_extends ps ctx [] []
  split <;> rename_i heq <;> rw [heq] at h <;> exact h

theorem parse_definition_date_extends {ctx : Context} {t_s t_e : Nat}
    {ps : List Parameter} :
    Extends (parse_definition_date ctx t_s t_e ps).1 ctx := by
  unfold parse_definition_date
  split
  · split
    · exact create_unknown_extends
    · exact extends_rfl
  · exact create_unknown_extends

theorem labels_rest_extends {ps : List Parameter} : ∀ {ctx : Context}
    {t_s t_e lp_s lp_e : Nat} {labels : List String},
    Extends (labels_rest ctx t_s t_e lp_s lp_e ps labels).1 ctx := by
  induction ps with
  | nil => intro ctx t_s t_e lp_s lp_e labels; exact extends_rfl
  | cons p rest ih =>
    intro ctx t_s t_e lp_s lp_e labels
    unfold labels_rest
    split
    · exact create_unknown_extends
    · split
      · exact create_unknown_extends
      · split
        · exact extends_trans add_warning_extends ih
        · exact ih

theorem parse_labels_ok {ctx : Context} {t_s t_e : Nat} {ps : List Parameter}
    (hl : ctx.language.isSome = true) :
    ∃ r, parse_labels ctx t_s t_e ps = some r ∧ Extends r.1 ctx := by
  unfold parse_labels
  split
  · exact ⟨_, rfl, create_unknown_extends⟩
  · split
    · exact ⟨_, rfl, create_unknown_extends⟩
    · split
      · exact ⟨_, rfl, create_unknown_extends⟩
      · split
        · rename_i heq; rw [heq] at hl; simp at hl
        · split
          · exact ⟨_, rfl, create_unknown_extends⟩
          · split
            · exact ⟨_, rfl, create_unknown_extends⟩
            · exact ⟨_, rfl, labels_rest_extends⟩

theorem ngd_nodes_extends {ns : List Node} : ∀ {ctx : Context},
    Extends (ngd_nodes ctx ns).1 ctx := by
  induction ns with
  | nil => intro ctx; exact extends_rfl
  | cons n rest ih =>
    intro ctx
    unfold ngd_nodes
    refine extends_trans ?_ ih
    split
    · exact parse_link_extends
    · exact extends_rfl
    · exact create_unknown_extends

theorem parse_non_gloss_definition_extends {ctx : Context} {t_s t_e : Nat}
    {ps : List Parameter} :
    Extends (parse_non_gloss_definition ctx t_s t_e ps).1 ctx := by
  unfold parse_non_gloss_definition
  split
  · split
    · exact create_unknown_extends
    · exact ngd_nodes_extends
  · exact create_unknown_extends

theorem ok_mono {α : Type} {X : Option (Context × α)} {ctx ctx1 : Context}
    (hx : Extends ctx1 ctx)
    (h : ∃ r, X = some r ∧ Extends r.1 ctx1) :
    ∃ r, X = some r ∧ Extends r.1 ctx := by
  obtain ⟨r, hr, h2⟩ := h
  exact ⟨r, hr, extends_trans hx h2⟩

theorem extends_isSome {b a : Context} (h : Extends b a)
    (hl : a.language.isSome = true) : b.language.isSome = true := by
  rw [h.1]; exact hl

mutual

theorem parse_definition_ok (ctx : Context) (item : ListItem)
    (hl : ctx.language.isSome = true) :
    ∃ r, parse_definition ctx item = some r ∧ Extends r.1 ctx := by
  rcases item with ⟨ns, i_s, i_e⟩
  obtain ⟨r, hr, hx⟩ := go_def_ok ctx ns [] none 0 0 hl
  rcases r with ⟨ctx1, defn, defs, ex, q⟩
  refine ⟨(if defn.isEmpty then add_warning ctx1 i_s i_e .empty else ctx1,
    .mk defn (defs.getD []) ex q), ?_, ?_⟩
  · simp only [parse_definition, hr]
  · exact extends_trans hx (ite_extends add_warning_extends extends_rfl)
termination_by sizeOf item
decreasing_by all_goals (simp_wf; try omega)

theorem go_def_ok (ctx : Context) (nodes : List Node) (defn : List Flowing)
    (defs : Option (List Definition)) (ex q : Nat)
    (hl : ctx.language.isSome = true) :
    ∃ r, go_def ctx nodes defn defs ex q = some r ∧ Extends r.1 ctx := by
  match nodes with
  | [] => exact ⟨(ctx, defn, defs, ex, q), by simp only [go_def], extends_rfl⟩
  | .definitionList items s e :: rest =>
    simp only [go_def]
    exact ok_mono add_warning_extends
      (go_def_ok _ rest _ _ _ _ (extends_isSome add_warning_extends hl))
  | .italic s e :: rest =>
    simp only [go_def]
    exact go_def_ok _ rest _ _ _ _ hl
  | .link target text s e :: rest =>
    simp only [go_def]
    exact ok_mono parse_link_extends
      (go_def_ok _ rest _ _ _ _ (extends_isSome parse_link_extends hl))
  | .orderedList items s e :: rest =>
    simp only [go_def]
    split
    · exact ok_mono add_warning_extends
        (go_def_ok _ rest _ _ _ _ (extends_isSome add_warning_extends hl))
    · obtain ⟨r, hr, hx⟩ := def_items_ok ctx items hl
      rcases r with ⟨ctx1, ds⟩
      rw [hr]
      exact ok_mono hx (go_def_ok _ rest _ _ _ _ (extends_isSome hx hl))
  | .text v s e :: rest =>
    simp only [go_def]
    exact go_def_ok _ rest _ _ _ _ hl
  | .template name parameters s e :: rest =>
    simp only [go_def]
    split
    · split
      · exact ok_mono parse_definition_date_extends
          (go_def_ok _ rest _ _ _ _
            (extends_isSome parse_definition_date_extends hl))
      · split
        · obtain ⟨r, hr, hx⟩ := @parse_labels_ok ctx s e parameters hl
          rcases r with ⟨ctx1, f⟩
          rw [hr]
          exact ok_mono hx (go_def_ok _ rest _ _ _ _ (extends_isSome hx hl))
        · split
          · exact ok_mono parse_non_gloss_definition_extends
              (go_def_ok _ rest _ _ _ _
                (extends_isSome parse_non_gloss_definition_extends hl))
          · exact ok_mono create_unknown_extends
              (go_def_ok _ rest _ _ _ _
                (extends_isSome create_unknown_extends hl))
    · exact ok_mono create_unknown_extends
        (go_def_ok _ rest _ _ _ _ (extends_isSome create_unknown_extends hl))
  | .unorderedList items s e :: rest =>
    simp only [go_def]
    exact ok_mono add_warning_extends
      (go_def_ok _ rest _ _ _ _ (extends_isSome add_warning_extends hl))
  | .bold s e :: rest =>
    simp only [go_def]
    exact ok_mono create_unknown_extends
      (go_def_ok _ rest _ _ _ _ (extends_isSome create_unknown_extends hl))
  | .characterEntity c s e :: rest =>
    simp only [go_def]
    exact ok_mono create_unknown_extends
      (go_def_ok _ rest _ _ _ _ (extends_isSome create_unknown_extends hl))
  | .heading lvl hn s e :: rest =>
    simp only [go_def]
    exact ok_mono create_unknown_extends
      (go_def_ok _ rest _ _ _ _ (extends_isSome create_unknown_extends hl))
  | .tag tn tns s e :: rest =>
    simp only [go_def]
    exact ok_mono create_unknown_extends
      (go_def_ok _ rest _ _ _ _ (extends_isSome create_unknown_extends hl))
  | .other s e :: rest =>
    simp only [go_def]
    exact ok_mono create_unknown_extends
      (go_def_ok _ rest _ _ _ _ (extends_isSome create_unknown_extends hl))
termination_by sizeOf nodes
decreasing_by all_goals (simp_wf; try omega)

theorem def_items_ok (ctx : Context) (items : List ListItem)
    (hl : ctx.language.isSome = true) :
    ∃ r, def_items ctx items = some r ∧ Extends r.1 ctx := by
  match items with
  | [] => exact ⟨(ctx, []), by simp only [def_items], extends_rfl⟩
  | i :: rest =>
    obtain ⟨r, hr, hx⟩ := parse_definition_ok ctx i hl
    rcases r with ⟨ctx1, d⟩
    obtain ⟨r2, hr2, hx2⟩ := def_items_ok ctx1 rest (extends_isSome hx hl)
    rcases r2 with ⟨ctx2, ds⟩
    exact ⟨(ctx2, d :: ds), by simp only [def_items, hr, hr2],
      extends_trans hx hx2⟩
termination_by sizeOf items
decreasing_by all_goals (simp_wf; try omega)

end

theorem infl_loop_ok (ctx : Context) (nodes : List Node)
    (inflection : Option (Option Template)) (tn : String)
    (hl : ctx.language.isSome = true) :
    ∃ r, infl_loop ctx nodes inflection tn = some r ∧ Extends r.1 ctx := by
  induction nodes generalizing ctx inflection with
  | nil => exact ⟨(ctx, inflection, 0), by simp only [infl_loop], extends_rfl⟩
  | cons node rest ih =>
    cases node
    case heading =>
      exact ⟨(ctx, inflection, 0), by simp only [infl_loop], extends_rfl⟩
    case template name parameters s e =>
      simp only [infl_loop]
      split
      · split
        · rename_i heq; rw [heq] at hl; simp at hl
        · split
          · split
            · obtain ⟨⟨c1, i1, k1⟩, hr, hx⟩ := ih (add_warning ctx s e
                .duplicate) (some none) (extends_isSome add_warning_extends hl)
              rw [hr]
              exact ⟨(c1, i1, k1 + 1), rfl,
                extends_trans add_warning_extends hx⟩
            · obtain ⟨⟨c1, i1, k1⟩, hr, hx⟩ := ih
                (parse_template ctx _ parameters).1
                (some (parse_template ctx _ parameters).2)
                (extends_isSome parse_template_extends hl)
              rw [hr]
              exact ⟨(c1, i1, k1 + 1), rfl,
                extends_trans parse_template_extends hx⟩
          · obtain ⟨⟨c1, i1, k1⟩, hr, hx⟩ := ih (add_warning ctx s e
              .unrecognized) inflection (extends_isSome add_warning_extends hl)
            rw [hr]
            exact ⟨(c1, i1, k1 + 1), rfl, extends_trans add_warning_extends hx⟩
      · obtain ⟨⟨c1, i1, k1⟩, hr, hx⟩ := ih (add_warning ctx s e .unrecognized)
          inflection (extends_isSome add_warning_extends hl)
        rw [hr]
        exact ⟨(c1, i1, k1 + 1), rfl, extends_trans add_warning_extends hx⟩
    all_goals (
      rename_i s e
      simp only [infl_loop, Node.start, Node.end_]
      obtain ⟨⟨c1, i1, k1⟩, hr, hx⟩ := ih (add_warning ctx s e .unrecognized)
        inflection (extends_isSome add_warning_extends hl)
      rw [hr]
      exact ⟨(c1, i1, k1 + 1), rfl, extends_trans add_warning_extends hx⟩)

theorem parse_inflection_ok (ctx : Context) (h_s h_e : Nat)
    (nodes : List Node) (output : List Template) (tn : String)
    (hl : ctx.language.isSome = true) :
    ∃ r, parse_inflection ctx h_s h_e nodes output tn = some r ∧
      Extends r.1 ctx := by
  obtain ⟨⟨c1, i1, k1⟩, hr, hx⟩ := infl_loop_ok ctx nodes none tn hl
  rcases i1 with _ | t
  · exact ⟨(add_warning c1 h_s h_e .sectionEmpty, output, k1),
      by simp only [parse_inflection, hr],
      extends_trans hx add_warning_extends⟩
  · rcases t with _ | t
    · exact ⟨(c1, output, k1), by simp only [parse_inflection, hr], hx⟩
    · exact ⟨(c1, output ++ [t], k1), by simp only [parse_inflection, hr], hx⟩

theorem supp_loop_extends {nodes : List Node} : ∀ {ctx : Context},
    Extends (supp_loop ctx nodes).1 ctx := by
  induction nodes with
  | nil => intro ctx; exact extends_rfl
  | cons node rest ih =>
    intro ctx
    cases node
    case heading => simp only [supp_loop]; exact extends_rfl
    all_goals (
      simp only [supp_loop, Node.start, Node.end_]
      exact extends_trans add_warning_extends ih)

theorem parse_supplementary_extends {ctx : Context} {h_s h_e : Nat}
    {nodes : List Node} {output : Bool} :
    Extends (parse_supplementary ctx h_s h_e nodes output).1 ctx := by
  unfold parse_supplementary
  exact extends_trans (ite_extends add_warning_extends extends_rfl)
    supp_loop_extends

theorem pron_loop_extends {nodes : List Node} : ∀ {ctx : Context}
    {has_list : Bool} {pron : Pronunciation},
    Extends (pron_loop ctx nodes has_list pron).1 ctx := by
  induction nodes with
  | nil => intro ctx has_list pron; exact extends_rfl
  | cons node rest ih =>
    intro ctx has_list pron
    cases node
    case heading => simp only [pron_loop]; exact extends_rfl
    case unorderedList =>
      simp only [pron_loop]
      exact extends_trans (ite_extends add_warning_extends extends_rfl) ih
    all_goals (
      simp only [pron_loop, Node.start, Node.end_]
      exact extends_trans add_warning_extends ih)

theorem parse_pronunciation_extends {ctx : Context} {h_s h_e : Nat}
    {nodes : List Node} {output : Option Pronunciation} :
    Extends (parse_pronunciation ctx h_s h_e nodes output).1 ctx := by
  unfold parse_pronunciation
  refine extends_trans (extends_trans (ite_extends add_warning_extends
    extends_rfl) pron_loop_extends) (ite_extends add_warning_extends
    extends_rfl)

theorem parse_template_term_extends {ctx : Context} {t_s t_e : Nat}
    {ps : List Parameter} :
    Extends (parse_template_term ctx t_s t_e ps).1 ctx := by
  unfold parse_template_term
  split
  · split
    · exact create_unknown_extends
    · split
      · exact create_unknown_extends
      · exact extends_rfl
  · exact create_unknown_extends

theorem un_item_node_extends {ctx : Context} {node : Node} :
    Extends (un_item_node ctx node).1 ctx := by
  unfold un_item_node
  split
  · exact extends_rfl
  · exact extends_rfl
  · exact parse_link_extends
  · split
    · exact add_warning_extends
    · exact create_unknown_extends
  · split
    · split
      · exact parse_template_term_extends
      · exact create_unknown_extends
    · exact create_unknown_extends
  · exact extends_rfl
  · exact create_unknown_extends

theorem un_item_nodes_extends {ns : List Node} : ∀ {ctx : Context},
    Extends (un_item_nodes ctx ns).1 ctx := by
  induction ns with
  | nil => intro ctx; exact extends_rfl
  | cons n rest ih =>
    intro ctx
    unfold un_item_nodes
    exact extends_trans un_item_node_extends ih

theorem un_items_extends {items : List ListItem} : ∀ {ctx : Context},
    Extends (un_items ctx items).1 ctx := by
  induction items with
  | nil => intro ctx; exact extends_rfl
  | cons i rest ih =>
    intro ctx
    unfold un_items
    split
    · exact extends_trans add_warning_extends ih
    · exact extends_trans un_item_nodes_extends ih

theorem un_loop_extends {nodes : List Node} : ∀ {ctx : Context}
    {notes : List Flowing}, Extends (un_loop ctx nodes notes).1 ctx := by
  induction nodes with
  | nil => intro ctx notes; exact extends_rfl
  | cons node rest ih =>
    intro ctx notes
    cases node
    case heading => simp only [un_loop]; exact extends_rfl
    case unorderedList =>
      simp only [un_loop]
      exact extends_trans un_items_extends ih
    all_goals (
      simp only [un_loop]
      exact extends_trans un_item_node_extends ih)

theorem parse_usage_notes_extends {ctx : Context} {h_s h_e : Nat}
    {nodes : List Node} {output : Option (Option (List Flowing))} :
    Extends (parse_usage_notes ctx h_s h_e nodes output).1 ctx := by
  unfold parse_usage_notes
  split
  · exact add_warning_extends
  · cases h2 : (un_loop ctx nodes []).2.1.isEmpty
    · simp only [h2, Bool.false_eq_true, if_false]
      exact un_loop_extends
    · simp only [h2, if_true]
      exact extends_trans un_loop_extends add_warning_extends

theorem pos_phase1_ok (ctx : Context) (nodes : List Node)
    (defs : Option (List Definition)) (head : Option (Option Template))
    (hl : ctx.language.isSome = true) :
    ∃ r, pos_phase1 ctx nodes defs head = some r ∧ Extends r.1 ctx := by
  induction nodes generalizing ctx defs head with
  | nil => exact ⟨(ctx, defs, head, 0), by simp only [pos_phase1], extends_rfl⟩
  | cons node rest ih =>
    cases node
    case heading =>
      exact ⟨(ctx, defs, head, 0), by simp only [pos_phase1], extends_rfl⟩
    case template name parameters s e =>
      simp only [pos_phase1]
      split
      · rename_i n hpt
        split
        · rename_i heq; rw [heq] at hl; simp at hl
        · split
          · split
            · obtain ⟨⟨c1, d1, h1, k1⟩, hr, hx⟩ := ih (add_warning ctx s e
                .duplicate) defs (some none)
                (extends_isSome add_warning_extends hl)
              simp only [hr]
              exact ⟨_, rfl, extends_trans add_warning_extends hx⟩
            · obtain ⟨⟨c1, d1, h1, k1⟩, hr, hx⟩ := ih
                (parse_template ctx n parameters).1 defs
                (some (parse_template ctx n parameters).2)
                (extends_isSome parse_template_extends hl)
              simp only [hr]
              exact ⟨_, rfl, extends_trans parse_template_extends hx⟩
          · obtain ⟨⟨c1, d1, h1, k1⟩, hr, hx⟩ := ih (add_warning ctx s e
              .unrecognized) defs head (extends_isSome add_warning_extends hl)
            simp only [hr]
            exact ⟨_, rfl, extends_trans add_warning_extends hx⟩
      · obtain ⟨⟨c1, d1, h1, k1⟩, hr, hx⟩ := ih (add_warning ctx s e
          .unrecognized) defs head (extends_isSome add_warning_extends hl)
        simp only [hr]
        exact ⟨_, rfl, extends_trans add_warning_extends hx⟩
    case orderedList items s e =>
      simp only [pos_phase1]
      split
      · obtain ⟨⟨c1, d1, h1, k1⟩, hr, hx⟩ := ih (add_warning ctx s e
          .duplicate) (some []) head (extends_isSome add_warning_extends hl)
        simp only [hr]
        exact ⟨_, rfl, extends_trans add_warning_extends hx⟩
      · obtain ⟨⟨ci, ds⟩, hri, hxi⟩ := def_items_ok ctx items hl
        simp only [hri]
        obtain ⟨⟨c1, d1, h1, k1⟩, hr, hx⟩ := ih ci (some ds) head
          (extends_isSome hxi hl)
        simp only [hr]
        exact ⟨_, rfl, extends_trans hxi hx⟩
    all_goals (
      rename_i s e
      simp only [pos_phase1, Node.start, Node.end_]
      obtain ⟨⟨c1, d1, h1, k1⟩, hr, hx⟩ := ih (add_warning ctx s e
        .unrecognized) defs head (extends_isSome add_warning_extends hl)
      simp only [hr]
      exact ⟨_, rfl, extends_trans add_warning_extends hx⟩)

theorem stepres_ok_mono {α : Type} {X : Option (StepRes α)}
    {ctx ctx1 : Context} (hx : Extends ctx1 ctx)
    (h : ∃ r, X = some r ∧ StepExtends r ctx1) :
    ∃ r, X = some r ∧ StepExtends r ctx := by
  obtain ⟨r, hr, h2⟩ := h
  refine ⟨r, hr, ?_⟩
  cases r with
  | stop => trivial
  | go c n a => exact extends_trans hx h2

theorem pos_step_ok (ctx : Context) (node : Node) (rest : List Node)
    (heading_level : Nat) (acc : PosAcc)
    (hl : ctx.language.isSome = true) :
    ∃ r, pos_step ctx node rest heading_level acc = some r ∧
      StepExtends r ctx := by
  cases node
  case heading lvl hn s e =>
    simp only [pos_step]
    by_cases hle : lvl ≤ heading_level
    · rw [if_pos hle]
      by_cases hlt : lvl < heading_level
      · rw [if_pos hlt]
        exact ⟨.stop, rfl, trivial⟩
      · rw [if_neg hlt]
        rcases hpt : parse_text hn with _ | t
        · simp only [hpt]
          exact ⟨_, rfl, add_warning_extends⟩
        · simp only [hpt]
          by_cases h1 : t = "Antonyms"
          · rw [if_pos h1]
            exact ⟨_, rfl, parse_supplementary_extends⟩
          · rw [if_neg h1]
            by_cases h2 : t = "Conjugation"
            · rw [if_pos h2]
              obtain ⟨⟨c1, infl, n⟩, hr, hx⟩ := parse_inflection_ok ctx s e rest acc.inflection "-conj-" hl
              simp only [hr]
              exact ⟨_, rfl, hx⟩
            · rw [if_neg h2]
              by_cases h3 : t = "Declension"
              · rw [if_pos h3]
                obtain ⟨⟨c1, infl, n⟩, hr, hx⟩ := parse_inflection_ok ctx s e rest acc.inflection "-decl-" hl
                simp only [hr]
                exact ⟨_, rfl, hx⟩
              · rw [if_neg h3]
                by_cases h4 : t = "Derived terms"
                · rw [if_pos h4]
                  exact ⟨_, rfl, parse_supplementary_extends⟩
                · rw [if_neg h4]
                  by_cases h5 : t = "Hypernyms"
                  · rw [if_pos h5]
                    exact ⟨_, rfl, parse_supplementary_extends⟩
                  · rw [if_neg h5]
                    by_cases h6 : t = "Hyponyms"
                    · rw [if_pos h6]
                      exact ⟨_, rfl, parse_supplementary_extends⟩
                    · rw [if_neg h6]
                      by_cases h7 : t = "Related terms"
                      · rw [if_pos h7]
                        exact ⟨_, rfl, parse_supplementary_extends⟩
                      · rw [if_neg h7]
                        by_cases h8 : t = "Synonyms"
                        · rw [if_pos h8]
                          exact ⟨_, rfl, parse_supplementary_extends⟩
                        · rw [if_neg h8]
                          by_cases h9 : t = "Translations"
                          · rw [if_pos h9]
                            exact ⟨_, rfl, parse_supplementary_extends⟩
                          · rw [if_neg h9]
                            by_cases h10 : t = "Usage notes"
                            · rw [if_pos h10]
                              exact ⟨_, rfl, parse_usage_notes_extends⟩
                            · rw [if_neg h10]
                              exact ⟨_, rfl, add_warning_extends⟩
    · rw [if_neg hle]
      exact ⟨_, rfl, add_warning_extends⟩
  all_goals (
    simp only [pos_step, Node.start, Node.end_]
    exact ⟨_, rfl, add_warning_extends⟩)

theorem pos_phase2_ok (ctx : Context) (nodes : List Node)
    (heading_level : Nat) (acc : PosAcc)
    (hl : ctx.language.isSome = true) :
    ∃ r, pos_phase2 ctx nodes heading_level acc = some r ∧ Extends r.1 ctx := by
  match nodes with
  | [] => exact ⟨(ctx, acc, 0), by simp only [pos_phase2], extends_rfl⟩
  | node :: rest =>
    obtain ⟨r, hr, hx⟩ := pos_step_ok ctx node rest heading_level acc hl
    cases r with
    | stop => exact ⟨(ctx, acc, 0), by simp only [pos_phase2, hr], extends_rfl⟩
    | go ctx1 n acc1 =>
      obtain ⟨⟨c1, a1, k1⟩, hr1, hx1⟩ := pos_phase2_ok ctx1 (rest.drop n)
        heading_level acc1 (extends_isSome hx hl)
      exact ⟨(c1, a1, k1 + 1 + n), by simp only [pos_phase2, hr, hr1],
        extends_trans hx hx1⟩
termination_by nodes.length
decreasing_by
  all_goals try simp_wf
  all_goals omega

theorem parse_pos_ok (ctx : Context) (h_s h_e : Nat) (nodes : List Node)
    (pos_entries : List PosEntry) (heading_level : Nat) (pos : Pos)
    (hl : ctx.language.isSome = true) :
    ∃ r, parse_pos ctx h_s h_e nodes pos_entries heading_level pos = some r ∧
      Extends r.1 ctx := by
  unfold parse_pos
  have hx0 : Extends (if pos_entries.any (fun en => en.pos == pos) then
      add_warning ctx h_s h_e .duplicate else ctx) ctx :=
    ite_extends add_warning_extends extends_rfl
  obtain ⟨⟨c1, d1, h1, k1⟩, hr1, hx1⟩ := pos_phase1_ok _ nodes none none
    (extends_isSome hx0 hl)
  simp only [hr1]
  have hx2 : Extends (if d1.isNone then add_warning c1 h_s h_e .sectionEmpty
      else c1) c1 := ite_extends add_warning_extends extends_rfl
  obtain ⟨⟨c2, a2, k2⟩, hr2, hx2b⟩ := pos_phase2_ok _ (nodes.drop k1)
    heading_level {} (extends_isSome hx2 (extends_isSome hx1
      (extends_isSome hx0 hl)))
  simp only [hr2]
  exact ⟨_, rfl, extends_trans hx0 (extends_trans hx1
    (extends_trans hx2 hx2b))⟩

theorem ety_pre_extends {nodes : List Node} : ∀ {ctx : Context}
    {etymology : Bool}, Extends (ety_pre ctx nodes etymology).1 ctx := by
  induction nodes with
  | nil => intro ctx etymology; exact extends_rfl
  | cons node rest ih =>
    intro ctx etymology
    cases node
    case heading => simp only [ety_pre]; exact extends_rfl
    all_goals (
      simp only [ety_pre, Node.start, Node.end_]
      exact extends_trans add_warning_extends ih)

theorem ety_step_ok (ctx : Context) (node : Node) (rest : List Node)
    (acc : EtyAcc) (hl : ctx.language.isSome = true) :
    ∃ r, ety_step ctx node rest acc = some r ∧ StepExtends r ctx := by
  cases node
  case heading lvl hn s e =>
    simp only [ety_step]
    by_cases hle : lvl < 5
    · rw [if_pos hle]
      by_cases hlt : lvl < 4
      · rw [if_pos hlt]
        exact ⟨.stop, rfl, trivial⟩
      · rw [if_neg hlt]
        rcases hpt : parse_text hn with _ | t
        · simp only [hpt]
          exact ⟨_, rfl, add_warning_extends⟩
        · simp only [hpt]
          by_cases h1 : t = "Alternative forms"
          · rw [if_pos h1]
            exact ⟨_, rfl, parse_supplementary_extends⟩
          · rw [if_neg h1]
            by_cases h2 : t = "Pronunciation"
            · rw [if_pos h2]
              exact ⟨_, rfl, parse_pronunciation_extends⟩
            · rw [if_neg h2]
              rcases hpn : pos_from_name t with _ | pos
              · simp only [hpn]
                exact ⟨_, rfl, add_warning_extends⟩
              · simp only [hpn]
                obtain ⟨⟨c1, entries, n⟩, hr, hx⟩ := parse_pos_ok ctx s e rest
                  acc.pos_entries 5 pos hl
                simp only [hr]
                exact ⟨_, rfl, hx⟩
    · rw [if_neg hle]
      exact ⟨_, rfl, add_warning_extends⟩
  all_goals (
    simp only [ety_step, Node.start, Node.end_]
    exact ⟨_, rfl, add_warning_extends⟩)

theorem ety_loop_ok (ctx : Context) (nodes : List Node) (acc : EtyAcc)
    (hl : ctx.language.isSome = true) :
    ∃ r, ety_loop ctx nodes acc = some r ∧ Extends r.1 ctx := by
  match nodes with
  | [] => exact ⟨(ctx, acc, 0), by simp only [ety_loop], extends_rfl⟩
  | node :: rest =>
    obtain ⟨r, hr, hx⟩ := ety_step_ok ctx node rest acc hl
    cases r with
    | stop => exact ⟨(ctx, acc, 0), by simp only [ety_loop, hr], extends_rfl⟩
    | go ctx1 n acc1 =>
      obtain ⟨⟨c1, a1, k1⟩, hr1, hx1⟩ := ety_loop_ok ctx1 (rest.drop n) acc1
        (extends_isSome hx hl)
      exact ⟨(c1, a1, k1 + 1 + n), by simp only [ety_loop, hr, hr1],
        extends_trans hx hx1⟩
termination_by nodes.length
decreasing_by
  all_goals try simp_wf
  all_goals omega

theorem parse_etymology_ok (ctx : Context) (h_s h_e : Nat)
    (nodes : List Node) (output : List EtymologyEntry)
    (hl : ctx.language.isSome = true) :
    ∃ r, parse_etymology ctx h_s h_e nodes output = some r ∧
      Extends r.1 ctx := by
  unfold parse_etymology
  obtain ⟨⟨c1, a1, k1⟩, hr, hx⟩ := ety_loop_ok (ety_pre ctx nodes false).1
    (nodes.drop (ety_pre ctx nodes false).2.2) {}
    (extends_isSome ety_pre_extends hl)
  simp only [hr]
  exact ⟨_, rfl, extends_trans ety_pre_extends (extends_trans hx
    (ite_extends add_warning_extends extends_rfl))⟩

theorem lang_step_ok (ctx : Context) (node : Node) (rest : List Node)
    (acc : LangAcc) (hl : ctx.language.isSome = true) :
    ∃ r, lang_step ctx node rest acc = some r ∧ StepExtends r ctx := by
  cases node
  case heading lvl hn s e =>
    simp only [lang_step]
    by_cases hle : lvl < 4
    · rw [if_pos hle]
      by_cases hlt : lvl < 3
      · rw [if_pos hlt]
        exact ⟨.stop, rfl, trivial⟩
      · rw [if_neg hlt]
        rcases hpt : parse_text hn with _ | t
        · simp only [hpt]
          exact ⟨_, rfl, add_warning_extends⟩
        · simp only [hpt]
          by_cases h1 : t = "Alternative forms"
          · rw [if_pos h1]
            exact ⟨_, rfl, parse_supplementary_extends⟩
          · rw [if_neg h1]
            by_cases h2 : t = "Anagrams"
            · rw [if_pos h2]
              exact ⟨_, rfl, parse_supplementary_extends⟩
            · rw [if_neg h2]
              by_cases h3 : t = "Etymology"
              · rw [if_pos h3]
                exact ⟨_, rfl, parse_supplementary_extends⟩
              · rw [if_neg h3]
                by_cases h4 : t = "Etymology 1" ∨ t = "Etymology 2" ∨ t = "Etymology 3" ∨ t = "Etymology 4"
                · rw [if_pos h4]
                  obtain ⟨⟨c1, entries, n⟩, hr, hx⟩ := parse_etymology_ok ctx s e rest
                    acc.etymology_entries hl
                  simp only [hr]
                  exact ⟨_, rfl, hx⟩
                · rw [if_neg h4]
                  by_cases h5 : t = "Further reading"
                  · rw [if_pos h5]
                    exact ⟨_, rfl, parse_supplementary_extends⟩
                  · rw [if_neg h5]
                    by_cases h6 : t = "Pronunciation"
                    · rw [if_pos h6]
                      exact ⟨_, rfl, parse_pronunciation_extends⟩
                    · rw [if_neg h6]
                      rcases hpn : pos_from_name t with _ | pos
                      · simp only [hpn]
                        exact ⟨_, rfl, add_warning_extends⟩
                      · simp only [hpn]
                        obtain ⟨⟨c1, entries, n⟩, hr, hx⟩ := parse_pos_ok ctx s e rest
                          acc.pos_entries 4 pos hl
                        simp only [hr]
                        exact ⟨_, rfl, hx⟩
    · rw [if_neg hle]
      exact ⟨_, rfl, add_warning_extends⟩
  case template name parameters s e =>
    simp only [lang_step]
    rcases hpt : parse_text name with _ | n
    · simp only [hpt]
      exact ⟨_, rfl, add_warning_extends⟩
    · simp only [hpt]
      by_cases h1 : n = "number box" ∨ n = "was fwotd" ∨ n = "was wotd"
          ∨ n = "wikipedia"
      · rw [if_pos h1]
        exact ⟨_, rfl, add_warning_extends⟩
      · rw [if_neg h1]
        exact ⟨_, rfl, add_warning_extends⟩
  all_goals (
    simp only [lang_step, Node.start, Node.end_]
    exact ⟨_, rfl, add_warning_extends⟩)

theorem lang_loop_ok (ctx : Context) (nodes : List Node) (acc : LangAcc)
    (hl : ctx.language.isSome = true) :
    ∃ r, lang_loop ctx nodes acc = some r ∧ Extends r.1 ctx := by
  match nodes with
  | [] => exact ⟨(ctx, acc, 0), by simp only [lang_loop], extends_rfl⟩
  | node :: rest =>
    obtain ⟨r, hr, hx⟩ := lang_step_ok ctx node rest acc hl
    cases r with
    | stop => exact ⟨(ctx, acc, 0), by simp only [lang_loop, hr], extends_rfl⟩
    | go ctx1 n acc1 =>
      obtain ⟨⟨c1, a1, k1⟩, hr1, hx1⟩ := lang_loop_ok ctx1 (rest.drop n) acc1
        (extends_isSome hx hl)
      exact ⟨(c1, a1, k1 + 1 + n), by simp only [lang_loop, hr, hr1],
        extends_trans hx hx1⟩
termination_by nodes.length
decreasing_by
  all_goals try simp_wf
  all_goals omega

theorem parse_language_ok (ctx : Context) (h_s h_e : Nat)
    (nodes : List Node) (entries : List LanguageEntry) (language : Language)
    (hl : ctx.language.isSome = true) :
    ∃ ctx1 le n,
      parse_language ctx h_s h_e nodes entries language
        = some (ctx1, entries ++ [le], n)
      ∧ Extends ctx1 ctx ∧ le.language = language := by
  unfold parse_language
  have hx0 : Extends (if entries.any (fun en => en.language == language) then
      add_warning ctx h_s h_e .duplicate else ctx) ctx :=
    ite_extends add_warning_extends extends_rfl
  obtain ⟨⟨c1, acc, n⟩, hr, hx⟩ := lang_loop_ok _ nodes {}
    (extends_isSome hx0 hl)
  simp only [hr]
  exact ⟨_, _, n, rfl,
    extends_trans hx0 (extends_trans hx
      (ite_extends add_warning_extends extends_rfl)), rfl⟩

theorem parse_step_ok (ctx : Context) (node : Node) (rest : List Node)
    (entries : List LanguageEntry) :
    ∃ r, parse_step ctx node rest entries = some r := by
  cases node
  case heading lvl hn s e =>
    simp only [parse_step]
    by_cases hle : lvl < 3
    · rw [if_pos hle]
      by_cases hlt : lvl < 2
      · rw [if_pos hlt]
        exact ⟨_, rfl⟩
      · rw [if_neg hlt]
        rcases hpt : parse_text hn with _ | t
        · simp only [hpt]
          exact ⟨_, rfl⟩
        · simp only [hpt]
          rcases hfn : Language.from_name t with _ | language
          · simp only [hfn]
            exact ⟨_, rfl⟩
          · simp only [hfn]
            obtain ⟨c2, le, n, hr, hx, hle2⟩ := parse_language_ok
              { ctx with language := some language } s e rest entries language
              rfl
            simp only [hr]
            exact ⟨_, rfl⟩
    · rw [if_neg hle]
      exact ⟨_, rfl⟩
  case template name parameters s e =>
    simp only [parse_step]
    rcases hpt : parse_text name with _ | n
    · simp only [hpt]
      exact ⟨_, rfl⟩
    · simp only [hpt]
      by_cases h1 : n = "also"
      · rw [if_pos h1]
        exact ⟨_, rfl⟩
      · rw [if_neg h1]
        exact ⟨_, rfl⟩
  all_goals (
    simp only [parse_step, Node.start, Node.end_]
    exact ⟨_, rfl⟩)

theorem parse_loop_ok (ctx : Context) (entries : List LanguageEntry)
    (nodes : List Node) : ∃ r, parse_loop ctx entries nodes = some r := by
  match nodes with
  | [] => exact ⟨(ctx, entries), by simp only [parse_loop]⟩
  | node :: rest =>
    obtain ⟨r, hr⟩ := parse_step_ok ctx node rest entries
    cases r with
    | halt ctx1 => exact ⟨(ctx1, entries), by simp only [parse_loop, hr]⟩
    | go ctx1 n entries1 =>
      obtain ⟨r1, hr1⟩ := parse_loop_ok ctx1 entries1 (rest.drop n)
      exact ⟨r1, by simp only [parse_loop, hr, hr1]⟩
termination_by nodes.length
decreasing_by
  all_goals try simp_wf
  all_goals omega

theorem pronLe_rfl {a : Pronunciation} : pronLe a a :=
  ⟨le_refl _, le_refl _, le_refl _, le_refl _, le_refl _⟩

theorem pronLe_trans {a b c : Pronunciation} (h1 : pronLe a b)
    (h2 : pronLe b c) : pronLe a c :=
  ⟨h1.1.trans h2.1, h1.2.1.trans h2.2.1, h1.2.2.1.trans h2.2.2.1,
   h1.2.2.2.1.trans h2.2.2.2.1, h1.2.2.2.2.trans h2.2.2.2.2⟩

theorem pron_template_mono {p : Pronunciation} {node : Node} :
    pronLe p (pron_template p node) := by
  unfold pron_template
  split
  · split
    · split
      · exact ⟨le_refl _, le_refl _, le_refl _, Bool.le_true _, le_refl _⟩
      · split
        · exact ⟨Bool.le_true _, le_refl _, le_refl _, le_refl _, le_refl _⟩
        · split
          · exact ⟨le_refl _, Bool.le_true _, le_refl _, le_refl _, le_refl _⟩
          · split
            · exact ⟨le_refl _, le_refl _, Bool.le_true _, le_refl _,
                le_refl _⟩
            · split
              · exact ⟨le_refl _, le_refl _, le_refl _, le_refl _,
                  Bool.le_true _⟩
              · exact pronLe_rfl
    · exact pronLe_rfl
  · exact pronLe_rfl

theorem pron_nodes_mono (ns : List Node) : ∀ {p : Pronunciation},
    pronLe p (ns.foldl pron_template p) := by
  induction ns with
  | nil => intro p; exact pronLe_rfl
  | cons n rest ih =>
    intro p
    exact pronLe_trans pron_template_mono ih

theorem pron_items_mono (items : List ListItem) : ∀ {p : Pronunciation},
    pronLe p (pron_items p items) := by
  unfold pron_items
  induction items with
  | nil => intro p; exact pronLe_rfl
  | cons i rest ih =>
    intro p
    exact pronLe_trans (pron_nodes_mono i.nodes) ih

theorem pron_loop_mono (nodes : List Node) : ∀ {ctx : Context}
    {has_list : Bool} {p : Pronunciation},
    pronLe p (pron_loop ctx nodes has_list p).2.2.1 := by
  induction nodes with
  | nil => intro ctx has_list p; exact pronLe_rfl
  | cons node rest ih =>
    intro ctx has_list p
    cases node
    case heading => simp only [pron_loop]; exact pronLe_rfl
    case unorderedList items s e =>
      simp only [pron_loop]
      exact pronLe_trans (pron_items_mono items) ih
    all_goals (
      simp only [pron_loop]
      exact ih)

theorem containsName_insert {m : List (String × String)} {k0 k v : String} :
    containsName (insertName m k0 v) k = (k0 == k || containsName m k) := by
  induction m with
  | nil => simp [insertName, containsName]
  | cons pr rest ih =>
    rcases pr with ⟨k1, v1⟩
    by_cases h : k1 = k0
    · subst h
      simp [insertName, containsName]
    · simp only [insertName, if_neg h, containsName, List.any_cons]
      simp only [containsName] at ih
      rw [ih]
      cases hkk : k1 == k
      · simp [Bool.or_comm, Bool.or_assoc, Bool.or_left_comm]
      · simp [Bool.or_comm, Bool.or_assoc, Bool.or_left_comm]

theorem lookupName_insert {m : List (String × String)} {k0 k v : String} :
    lookupName (insertName m k0 v) k
      = if k0 = k then some v else lookupName m k := by
  induction m with
  | nil => simp only [insertName, lookupName]
  | cons pr rest ih =>
    rcases pr with ⟨k1, v1⟩
    by_cases h : k1 = k0
    · subst h
      simp only [insertName, if_pos rfl, lookupName]
      by_cases h2 : k1 = k
      · subst h2
        simp
      · simp [h2]
    · simp only [insertName, if_neg h, lookupName]
      by_cases h2 : k1 = k
      · subst h2
        rw [if_pos rfl, if_neg (fun hh : k0 = k1 => h hh.symm), if_pos rfl]
      · simp [h2, ih]

theorem countMsg_append_one {ws : List Warning} {w : Warning}
    {m : WarningMessage} :
    countMsg (ws ++ [w]) m
      = countMsg ws m + (if w.message == m then 1 else 0) := by
  unfold countMsg
  rw [List.filter_append]
  cases h : w.message == m
  · simp [List.filter, h]
  · simp [List.filter, h]

theorem seen_insert_inv {named : List (String × String)} {seen : List String}
    {k0 : String} (hinv : ∀ k, containsName named k = seenHas seen k)
    {v : String} :
    ∀ k, containsName (insertName named k0 v) k
      = seenHas (if seenHas seen k0 then seen else seen ++ [k0]) k := by
  intro k
  rw [containsName_insert, hinv k]
  by_cases hs : seenHas seen k0 = true
  · rw [if_pos hs]
    cases hbeq : k0 == k
    · simp
    · have hk : k0 = k := by simpa using hbeq
      subst hk
      simp only [Bool.true_or]
      exact hs.symm
  · rw [if_neg hs]
    simp only [seenHas, List.any_append, List.any_cons, List.any_nil,
      Bool.or_false]
    exact Bool.or_comm _ _

theorem tmpl_params_spec (ps : List Parameter) :
    ∀ (ctx : Context) (named : List (String × String))
      (unnamed : List String) (seen : List String),
    (∀ p ∈ ps, paramShapeOk p = true) →
    (∀ k, containsName named k = seenHas seen k) →
    ∃ ctx2 named2 unnamed2,
      tmpl_params ctx ps named unnamed = (ctx2, some (named2, unnamed2))
      ∧ (∀ k, lookupName named2 k = (lastNamed ps k).or (lookupName named k))
      ∧ countMsg ctx2.warnings .duplicate
          = countMsg ctx.warnings .duplicate + dupCount ps seen := by
  induction ps with
  | nil =>
    intro ctx named unnamed seen hshape hinv
    refine ⟨ctx, named, unnamed, by simp only [tmpl_params], ?_, ?_⟩
    · intro k
      simp [lastNamed, Option.or]
    · simp [dupCount]
  | cons p rest ih =>
    intro ctx named unnamed seen hshape hinv
    have hp := hshape p (List.mem_cons_self p rest)
    have hrest : ∀ q ∈ rest, paramShapeOk q = true :=
      fun q hq => hshape q (List.mem_cons_of_mem p hq)
    rcases hn : p.name with _ | nm
    · have hv0 : (parse_text p.value).isSome = true := by
        simpa [paramShapeOk, hn] using hp
      rcases hv : parse_text p.value with _ | v
      · rw [hv] at hv0
        simp at hv0
      · obtain ⟨ctx2, named2, unnamed2, h1, h2, h3⟩ := ih ctx named
          (unnamed ++ [v]) seen hrest hinv
        refine ⟨ctx2, named2, unnamed2, ?_, ?_, ?_⟩
        · simp only [tmpl_params, hn, hv, h1]
        · intro k
          rw [h2 k]
          cases hlm : lastNamed rest k <;>
            simp [lastNamed, hn, hlm]
        · rw [h3]
          simp only [dupCount, hn]
    · have hp' : (parse_parameter_name p).isSome = true ∧
          (parse_text p.value).isSome = true := by
        have := hp
        simp only [paramShapeOk, hn, Bool.and_eq_true] at this
        exact this
      rcases hk : parse_parameter_name p with _ | k0
      · rw [hk] at hp'
        simp at hp'
      rcases hv : parse_text p.value with _ | v
      · rw [hv] at hp'
        simp at hp'
      obtain ⟨ctx2, named2, unnamed2, h1, h2, h3⟩ := ih
        (if containsName named k0 then
          add_warning ctx p.start p.end_ .duplicate else ctx)
        (insertName named k0 v) unnamed
        (if seenHas seen k0 then seen else seen ++ [k0]) hrest
        (seen_insert_inv hinv)
      refine ⟨ctx2, named2, unnamed2, ?_, ?_, ?_⟩
      · simp only [tmpl_params, hn, hk, hv, h1]
      · intro k
        rw [h2 k, lookupName_insert]
        cases hlm : lastNamed rest k
        · by_cases hkk : k0 = k
          · subst hkk
            simp [lastNamed, hn, hk, hv, hlm, Option.or]
          · simp [lastNamed, hn, hk, hv, hlm, hkk, Option.or]
        · simp [lastNamed, hn, hk, hv, hlm, Option.or]
      · rw [h3]
        have hcount : countMsg (if containsName named k0 then
            add_warning ctx p.start p.end_ .duplicate else ctx).warnings
              .duplicate
            = countMsg ctx.warnings .duplicate
              + (if seenHas seen k0 then 1 else 0) := by
          rw [← hinv k0]
          by_cases hc : containsName named k0 = true
          · rw [if_pos hc, if_pos hc]
            simp [add_warning, countMsg_append_one]
          · rw [if_neg hc, if_neg hc]
            simp
        rw [hcount]
        simp only [dupCount, hn, hk]
        omega

theorem countMsg_append {a b : List Warning} {m : WarningMessage} :
    countMsg (a ++ b) m = countMsg a m + countMsg b m := by
  unfold countMsg
  rw [List.filter_append, List.length_append]

theorem infl_loop_occupied (nodes : List Node) : ∀ (ctx : Context)
    (x : Option Template) (tn : String) (l : Language),
    ctx.language = some l →
    ∃ ctx' k,
      infl_loop ctx nodes (some x) tn
        = some (ctx',
            if ((beforeHeading nodes).filter (inflMatches l tn)).length = 0
              then some x else some none, k)
      ∧ countMsg ctx'.warnings .duplicate
          = countMsg ctx.warnings .duplicate
            + ((beforeHeading nodes).filter (inflMatches l tn)).length := by
  induction nodes with
  | nil =>
    intro ctx x tn l hl
    exact ⟨ctx, 0, by simp [infl_loop, beforeHeading],
      by simp [beforeHeading, countMsg]⟩
  | cons node rest ih =>
    intro ctx x tn l hl
    cases node
    case heading =>
      exact ⟨ctx, 0, by simp [infl_loop, beforeHeading],
        by simp [beforeHeading, countMsg]⟩
    case template nm ps s e =>
      rcases hpt : parse_text nm with _ | n
      · have hmatch : inflMatches l tn (Node.template nm ps s e) = false := by
          simp [inflMatches, hpt]
        obtain ⟨ctx', k, hr, hc⟩ := ih (add_warning ctx s e .unrecognized)
          x tn l (by simp [add_warning, hl])
        refine ⟨ctx', k + 1, ?_, ?_⟩
        · simp only [infl_loop, hpt]
          rw [hr]
          simp [beforeHeading, hmatch]
        · rw [hc]
          simp +decide [add_warning, countMsg_append_one, beforeHeading,
            hmatch]
      · by_cases hcond : l.language_code.data.isPrefixOf n.data = true ∧
            tn.data.isPrefixOf (n.data.drop l.language_code.data.length)
              = true
        · have hmatch : inflMatches l tn (Node.template nm ps s e) = true := by
            simp only [inflMatches, hpt, hcond.1, hcond.2, Bool.and_self]
          obtain ⟨ctx', k, hr, hc⟩ := ih (add_warning ctx s e .duplicate)
            none tn l (by simp [add_warning, hl])
          rw [ite_self] at hr
          refine ⟨ctx', k + 1, ?_, ?_⟩
          · simp only [infl_loop, hpt, hl]
            rw [if_pos hcond]
            simp only [Option.isSome_some, if_true]
            rw [hr]
            simp [beforeHeading, hmatch]
          · rw [hc]
            simp +decide [add_warning, countMsg_append_one, beforeHeading,
              hmatch]
            omega
        · have hmatch : inflMatches l tn (Node.template nm ps s e)
              = false := by
            simp only [inflMatches, hpt]
            cases h2 : (l.language_code.data.isPrefixOf n.data &&
                tn.data.isPrefixOf (n.data.drop l.language_code.data.length))
            · rfl
            · rw [Bool.and_eq_true] at h2
              exact absurd h2 hcond
          obtain ⟨ctx', k, hr, hc⟩ := ih (add_warning ctx s e .unrecognized)
            x tn l (by simp [add_warning, hl])
          refine ⟨ctx', k + 1, ?_, ?_⟩
          · simp only [infl_loop, hpt, hl]
            rw [if_neg hcond]
            rw [hr]
            simp [beforeHeading, hmatch]
          · rw [hc]
            simp +decide [add_warning, countMsg_append_one, beforeHeading,
              hmatch]
    all_goals (
      rename_i s e
      obtain ⟨ctx', k, hr, hc⟩ := ih (add_warning ctx s e .unrecognized)
        x tn l (by simp [add_warning, hl])
      refine ⟨ctx', k + 1, ?_, ?_⟩
      · simp only [infl_loop, Node.start, Node.end_]
        rw [hr]
        simp [beforeHeading, inflMatches]
      · rw [hc]
        simp +decide [add_warning, countMsg_append_one, beforeHeading,
          inflMatches])

theorem infl_loop_first (nodes : List Node) : ∀ (ctx : Context)
    (tn : String) (l : Language),
    ctx.language = some l →
    2 ≤ ((beforeHeading nodes).filter (inflMatches l tn)).length →
    ∃ ctx' k, infl_loop ctx nodes none tn = some (ctx', some none, k)
      ∧ countMsg ctx.warnings .duplicate
          + (((beforeHeading nodes).filter (inflMatches l tn)).length - 1)
        ≤ countMsg ctx'.warnings .duplicate := by
  induction nodes with
  | nil =>
    intro ctx tn l hl hm
    simp [beforeHeading] at hm
  | cons node rest ih =>
    intro ctx tn l hl hm
    cases node
    case heading =>
      simp [beforeHeading] at hm
    case template nm ps s e =>
      rcases hpt : parse_text nm with _ | n
      · have hmatch : inflMatches l tn (Node.template nm ps s e) = false := by
          simp [inflMatches, hpt]
        obtain ⟨ctx', k, hr, hc⟩ := ih (add_warning ctx s e .unrecognized)
          tn l (by simp [add_warning, hl])
          (by simp [beforeHeading, hmatch] at hm; omega)
        refine ⟨ctx', k + 1, ?_, ?_⟩
        · simp only [infl_loop, hpt]
          rw [hr]
        · simp +decide [add_warning, countMsg_append_one] at hc
          simp [beforeHeading, hmatch]
          omega
      · by_cases hcond : l.language_code.data.isPrefixOf n.data = true ∧
            tn.data.isPrefixOf (n.data.drop l.language_code.data.length)
              = true
        · have hmatch : inflMatches l tn (Node.template nm ps s e) = true := by
            simp only [inflMatches, hpt, hcond.1, hcond.2, Bool.and_self]
          have hm1 : 1 ≤ ((beforeHeading rest).filter
              (inflMatches l tn)).length := by
            simp [beforeHeading, hmatch] at hm
            omega
          have hlp : (parse_template ctx n ps).1.language = some l :=
            (@parse_template_extends ctx n ps).1.trans hl
          obtain ⟨ctx', k, hr, hc⟩ := infl_loop_occupied rest
            (parse_template ctx n ps).1 (parse_template ctx n ps).2 tn l hlp
          rw [if_neg (by omega : ¬((beforeHeading rest).filter
              (inflMatches l tn)).length = 0)] at hr
          refine ⟨ctx', k + 1, ?_, ?_⟩
          · simp only [infl_loop, hpt, hl]
            rw [if_pos hcond]
            simp only [Option.isSome_none, Bool.false_eq_true, if_false]
            rw [hr]
          · obtain ⟨h1, h2, wt, hwt⟩ := @parse_template_extends ctx n ps
            rw [hwt, countMsg_append] at hc
            simp [beforeHeading, hmatch]
            omega
        · have hmatch : inflMatches l tn (Node.template nm ps s e)
              = false := by
            simp only [inflMatches, hpt]
            cases h2 : (l.language_code.data.isPrefixOf n.data &&
                tn.data.isPrefixOf (n.data.drop l.language_code.data.length))
            · rfl
            · rw [Bool.and_eq_true] at h2
              exact absurd h2 hcond
          obtain ⟨ctx', k, hr, hc⟩ := ih (add_warning ctx s e .unrecognized)
            tn l (by simp [add_warning, hl])
            (by simp [beforeHeading, hmatch] at hm; omega)
          refine ⟨ctx', k + 1, ?_, ?_⟩
          · simp only [infl_loop, hpt, hl]
            rw [if_neg hcond]
            rw [hr]
          · simp +decide [add_warning, countMsg_append_one] at hc
            simp [beforeHeading, hmatch]
            omega
    all_goals (
      rename_i s e
      obtain ⟨ctx', k, hr, hc⟩ := ih (add_warning ctx s e .unrecognized)
        tn l (by simp [add_warning, hl])
        (by simp [beforeHeading, inflMatches] at hm; omega)
      refine ⟨ctx', k + 1, ?_, ?_⟩
      · simp only [infl_loop, Node.start, Node.end_]
        rw [hr]
      · simp +decide [add_warning, countMsg_append_one] at hc
        simp [beforeHeading, inflMatches]
        omega)

/-- C6: for every source text and node sequence, `parse` returns an output
and never panics: the `Option`-modelled panics (the `unwrap` of the current
language in the part-of-speech, label and inflection parsers) are
unreachable, because those parsers only run while a language section is
active. -/
theorem c6_parse_never_panics (wiki_text : String) (nodes : List Node) :
    (parse wiki_text nodes).isSome = true := by
  obtain ⟨⟨c, es⟩, hr⟩ := parse_loop_ok ⟨none, [], wiki_text⟩ [] nodes
  simp [parse, hr]

/-- C7: in the general template-to-record parser, when every unnamed value
flattens to text and every named parameter has a single-text-node name and
a flattenable value, the template is not rejected, every name maps to the
value of its last occurrence, and one Duplicate warning is emitted per
repeated name. -/
theorem c7_template_last_wins (ctx : Context) (name : String)
    (ps : List Parameter)
    (hshape : ∀ p ∈ ps, paramShapeOk p = true) :
    ∃ ctx2 t, parse_template ctx name ps = (ctx2, some t)
      ∧ t.name = name
      ∧ (∀ k, lookupName t.named_parameters k = lastNamed ps k)
      ∧ countMsg ctx2.warnings .duplicate
          = countMsg ctx.warnings .duplicate + dupCount ps [] := by
  obtain ⟨ctx2, named2, unnamed2, h1, h2, h3⟩ := tmpl_params_spec ps ctx [] []
    [] hshape (fun k => by simp [containsName, seenHas])
  refine ⟨ctx2, ⟨name, named2, unnamed2⟩, ?_, rfl, ?_, h3⟩
  · simp only [parse_template, h1]
  · intro k
    rw [h2 k]
    cases lastNamed ps k <;> simp [lookupName, Option.or]

/-- Witness for C7 at a concrete repeated parameter name. -/
theorem c7_witness :
    (∀ p ∈ [Parameter.mk (some [.text "a" 1 2]) [.text "1" 3 4] 1 4,
            Parameter.mk (some [.text "a" 5 6]) [.text "2" 7 8] 5 8],
      paramShapeOk p = true)
    ∧ ∃ ctx2 t,
        parse_template ⟨none, [], "w"⟩ "head"
          [Parameter.mk (some [.text "a" 1 2]) [.text "1" 3 4] 1 4,
           Parameter.mk (some [.text "a" 5 6]) [.text "2" 7 8] 5 8]
          = (ctx2, some t)
        ∧ t.name = "head"
        ∧ (∀ k, lookupName t.named_parameters k = lastNamed
            [Parameter.mk (some [.text "a" 1 2]) [.text "1" 3 4] 1 4,
             Parameter.mk (some [.text "a" 5 6]) [.text "2" 7 8] 5 8] k)
        ∧ countMsg ctx2.warnings .duplicate
            = countMsg (Context.mk none [] "w").warnings .duplicate
              + dupCount
                [Parameter.mk (some [.text "a" 1 2]) [.text "1" 3 4] 1 4,
                 Parameter.mk (some [.text "a" 5 6]) [.text "2" 7 8] 5 8] [] :=
  ⟨by decide, c7_template_last_wins ⟨none, [], "w"⟩ "head" _ (by decide)⟩

/-- C8: an Unrecognized node replaced by an `Unknown` placeholder carries
exactly the source slice spanning the node's start and end offsets: this is
what `create_unknown` produces, and it is how the definition-list parser
and the usage-notes parser replace an unrecognizable node. -/
theorem c8_unknown_round_trip :
    (∀ (ctx : Context) (u_s u_e w_s w_e : Nat) (m : WarningMessage),
      create_unknown ctx u_s u_e w_s w_e m
        = (add_warning ctx w_s w_e m,
           Flowing.unknown (sliceStr ctx.wiki_text u_s u_e))
      ∧ (create_unknown ctx u_s u_e w_s w_e m).1.warnings.length
          = ctx.warnings.length + 1)
    ∧ (∀ (ctx : Context) (s e : Nat),
        un_item_node ctx (Node.other s e)
          = (add_warning ctx s e .unrecognized,
             Flowing.unknown (sliceStr ctx.wiki_text s e)))
    ∧ (∀ (ctx : Context) (s e : Nat) (rest : List Node) (defn : List Flowing)
        (defs : Option (List Definition)) (ex q : Nat),
        go_def ctx (Node.other s e :: rest) defn defs ex q
          = go_def (add_warning ctx s e .unrecognized) rest
              (defn ++ [Flowing.unknown (sliceStr ctx.wiki_text s e)])
              defs ex q) := by
  refine ⟨fun ctx u_s u_e w_s w_e m => ⟨rfl, ?_⟩, fun ctx s e => rfl, ?_⟩
  · simp [create_unknown, add_warning]
  · intro ctx s e rest defn defs ex q
    simp only [go_def, create_unknown, Node.start, Node.end_]

/-- C9: in a definition list item, a `label`/`lb` template whose first
parameter is unnamed and flattens to a language code different from the
active language's code yields exactly one ValueConflicting warning (at the
parameter's span) and contributes an `Unknown` element holding the verbatim
source text of the whole template. -/
theorem c9_label_conflict (ctx : Context) (l : Language) (nm : List Node)
    (lp : Parameter) (lrest : List Parameter) (rest : List Node) (s e : Nat)
    (defn : List Flowing) (defs : Option (List Definition)) (ex q : Nat)
    (lang : String)
    (hl : ctx.language = some l)
    (hname : parse_text nm = some "label" ∨ parse_text nm = some "lb")
    (hpname : lp.name = none)
    (hpval : parse_text lp.value = some lang)
    (hconf : lang ≠ l.language_code) :
    go_def ctx (Node.template nm (lp :: lrest) s e :: rest) defn defs ex q
      = go_def (add_warning ctx lp.start lp.end_ .valueConflicting) rest
          (defn ++ [Flowing.unknown (sliceStr ctx.wiki_text s e)])
          defs ex q := by
  have hlbl : parse_labels ctx s e (lp :: lrest)
      = some (add_warning ctx lp.start lp.end_ .valueConflicting,
         Flowing.unknown (sliceStr ctx.wiki_text s e)) := by
    simp only [parse_labels, hpname, hpval, hl, create_unknown]
    rw [if_pos hconf]
  rcases hname with h | h
  · simp only [go_def, h]
    rw [if_neg (by decide : ¬("label" = "defdate"))]
    rw [if_pos (Or.inl trivial : True ∨ ("label" = "lb"))]
    simp only [hlbl]
  · simp only [go_def, h]
    rw [if_neg (by decide : ¬("lb" = "defdate"))]
    rw [if_pos (Or.inr trivial : ("lb" = "label") ∨ True)]
    simp only [hlbl]

/-- Witness for C9 at a concrete mismatched label template. -/
theorem c9_witness :
    go_def ⟨some .en, [], "0123456789"⟩
      [Node.template [.text "label" 2 7]
        [Parameter.mk none [.text "de" 4 6] 4 6] 1 9] [] none 0 0
      = go_def (add_warning ⟨some .en, [], "0123456789"⟩ 4 6 .valueConflicting)
          [] ([] ++ [Flowing.unknown (sliceStr "0123456789" 1 9)]) none 0 0 :=
  c9_label_conflict ⟨some .en, [], "0123456789"⟩ .en [.text "label" 2 7]
    (Parameter.mk none [.text "de" 4 6] 4 6) [] [] 1 9 [] none 0 0 "de"
    rfl (Or.inl rfl) rfl rfl (by decide)

/-- C10: a second Pronunciation section (the out-slot is already `some p`)
emits a Duplicate warning, its body is still scanned starting from the
first section's flags, and flags are monotone: every flag already true
stays true. -/
theorem c10_pronunciation_monotone (ctx : Context) (h_s h_e : Nat)
    (nodes : List Node) (p : Pronunciation) :
    ∃ p' k w,
      parse_pronunciation ctx h_s h_e nodes (some p)
        = (⟨ctx.language,
            ctx.warnings ++ ⟨h_e, ctx.language, .duplicate, h_s⟩ :: w,
            ctx.wiki_text⟩, some p', k)
      ∧ pronLe p p' := by
  obtain ⟨hlang, htext, w1, hw⟩ := @pron_loop_extends nodes
    (add_warning ctx h_s h_e .duplicate) false p
  have hmono := @pron_loop_mono nodes
    (add_warning ctx h_s h_e .duplicate) false p
  rcases hR : pron_loop (add_warning ctx h_s h_e .duplicate) nodes false p
    with ⟨⟨c1l, c1w, c1t⟩, b1, p1, k1⟩
  rw [hR] at hw hlang htext hmono
  simp only [add_warning] at hw hlang htext
  cases b1 with
  | false =>
    refine ⟨p1, k1, w1 ++ [⟨h_e, c1l, .sectionEmpty, h_s⟩], ?_, hmono⟩
    simp only [parse_pronunciation, Option.isSome_some, if_true,
      Option.getD_some, hR, Bool.not_false]
    simp [add_warning, hlang, htext, hw, List.append_assoc]
  | true =>
    refine ⟨p1, k1, w1, ?_, hmono⟩
    simp only [parse_pronunciation, Option.isSome_some, if_true,
      Option.getD_some, hR, Bool.not_true]
    simp [add_warning, hlang, htext, hw, List.append_assoc]

/-- C1 counterexample: on an article with two `==English==` headings, the
output contains two `LanguageEntry` values for English, refuting "at most
one LanguageEntry per language / the first occurrence wins". -/
theorem c1_counterexample :
    (parse "==English==\n==English=="
      [.heading 2 [.text "English" 2 9] 0 11,
       .heading 2 [.text "English" 14 21] 12 23]).map
      (fun o => ((o.language_entries.filter
        (fun le => le.language == Language.en)).length,
        o.language_entries.length,
        countMsg o.warnings .duplicate))
      = some (2, 2, 1) := by
  simp +decide [parse, parse_loop, parse_step, parse_language, lang_loop,
    lang_step, parse_text, Language.from_name, add_warning, countMsg]

/-- C1 amended: when a language section's heading repeats the language of
an earlier entry, one Duplicate diagnostic is emitted, and the section is
still parsed and appended as an additional `LanguageEntry` for that
language (the first occurrence does not win). -/
theorem c1_amended_thm (ctx : Context) (h_s h_e : Nat) (nodes : List Node)
    (entries : List LanguageEntry) (language l : Language)
    (hl : ctx.language = some l)
    (hdup : entries.any (fun en => en.language == language) = true) :
    ∃ ctx1 le n w,
      parse_language ctx h_s h_e nodes entries language
        = some (ctx1, entries ++ [le], n)
      ∧ le.language = language
      ∧ ctx1.warnings
          = ctx.warnings ++ ⟨h_e, some l, .duplicate, h_s⟩ :: w := by
  obtain ⟨⟨c1, acc, n⟩, hr, ⟨hlang, htext, w1, hw⟩⟩ := lang_loop_ok
    (add_warning ctx h_s h_e .duplicate) nodes {}
    (by simp [add_warning, hl])
  simp only [parse_language, hdup, if_true, hr]
  by_cases hse : acc.pos_entries.isEmpty ∧ acc.etymology_entries.isEmpty
  · rw [if_pos hse]
    refine ⟨_, _, n, w1 ++ [⟨h_e, c1.language, .sectionEmpty, h_s⟩], rfl,
      rfl, ?_⟩
    simp only [add_warning] at hw ⊢
    rw [hw]
    simp [hl, List.append_assoc]
  · rw [if_neg hse]
    refine ⟨_, _, n, w1, rfl, rfl, ?_⟩
    simp only [add_warning] at hw
    rw [hw]
    simp [hl, List.append_assoc]

/-- Witness for C1 at a concrete duplicate English entry. -/
theorem c1_amended_witness :
    ([LanguageEntry.mk false []
        (EtymologyEntry.mk false false false false false false [] false)
        false .en].any (fun en => en.language == Language.en) = true)
    ∧ ∃ ctx1 le n w,
        parse_language ⟨some .en, [], "w"⟩ 0 5 []
          [LanguageEntry.mk false []
            (EtymologyEntry.mk false false false false false false [] false)
            false .en] .en
          = some (ctx1,
              [LanguageEntry.mk false []
                (EtymologyEntry.mk false false false false false false []
                  false) false .en] ++ [le], n)
        ∧ le.language = Language.en
        ∧ ctx1.warnings
            = ([] : List Warning)
              ++ ⟨5, some Language.en, .duplicate, 0⟩ :: w :=
  ⟨by decide, c1_amended_thm ⟨some .en, [], "w"⟩ 0 5 [] _ .en .en rfl
    (by decide)⟩

/-- C2 counterexample: a level-2 heading with unrecognized text does not
terminate top-level scanning; the sibling node after it is still processed
and warned about (two Unrecognized warnings, one per node). -/
theorem c2_counterexample :
    parse "w" [.heading 2 [.text "Foo" 2 5] 0 7, .text "x" 8 9]
      = some ⟨[], [⟨7, none, .unrecognized, 0⟩,
                   ⟨9, none, .unrecognized, 8⟩]⟩ := by
  simp +decide [parse, parse_loop, parse_step, parse_text,
    Language.from_name, add_warning]

/-- C2 amended: a level-1 heading is marked Unrecognized and terminates
top-level scanning immediately (no later sibling is processed); a level-2
heading whose text is not a recognized language name is marked Unrecognized
and skipped, and scanning continues with the following siblings. -/
theorem c2_amended_thm :
    (∀ (wt : String) (hn : List Node) (s e : Nat) (rest : List Node),
      parse wt (Node.heading 1 hn s e :: rest)
        = some ⟨[], [⟨e, none, .unrecognized, s⟩]⟩)
    ∧ (∀ (ctx : Context) (entries : List LanguageEntry) (hn : List Node)
        (s e : Nat) (rest : List Node),
        (parse_text hn).bind Language.from_name = none →
        parse_loop ctx entries (Node.heading 2 hn s e :: rest)
          = parse_loop (add_warning ctx s e .unrecognized) entries rest) := by
  constructor
  · intro wt hn s e rest
    simp [parse, parse_loop, parse_step, add_warning]
  · intro ctx entries hn s e rest hno
    rcases hpt : parse_text hn with _ | t
    · simp [parse_loop, parse_step, hpt]
    · have hfn : Language.from_name t = none := by
        rw [hpt] at hno
        simpa using hno
      simp [parse_loop, parse_step, hpt, hfn]

/-- Witness for C2 at a concrete unrecognized level-2 heading. -/
theorem c2_amended_witness :
    parse_loop ⟨none, [], "w"⟩ [] [.heading 2 [.text "Foo" 2 5] 0 7]
      = parse_loop (add_warning ⟨none, [], "w"⟩ 0 7 .unrecognized) [] [] :=
  c2_amended_thm.2 ⟨none, [], "w"⟩ [] [.text "Foo" 2 5] 0 7 [] (by decide)

/-- C3 counterexample: two matching inflection templates in one section
leave the output inflection list empty — the first match is not kept — and
emit one Duplicate warning. -/
theorem c3_counterexample :
    parse_inflection ⟨some .en, [], "w"⟩ 0 5
      [.template [.text "en-conj-a" 10 19] [] 8 21,
       .template [.text "en-conj-b" 30 39] [] 28 41] [] "-conj-"
      = some (⟨some .en, [⟨41, some .en, .duplicate, 28⟩], "w"⟩, [], 2) :=
  rfl

/-- C3 amended: in every node run (the siblings before the next heading)
containing two or more matching inflection templates — however many matches
and whatever other nodes are interleaved — the output inflection list is
returned unchanged, so not even the first match is kept, and at least one
Duplicate warning per further match is appended; moreover at any point of
the scan where the inflection slot is already occupied, a further matching
template emits exactly one Duplicate warning at its own span and nulls the
slot before the scan continues. -/
theorem c3_amended_thm :
    (∀ (ctx : Context) (l : Language) (h_s h_e : Nat) (nodes : List Node)
      (output : List Template) (tn : String),
      ctx.language = some l →
      2 ≤ ((beforeHeading nodes).filter (inflMatches l tn)).length →
      ∃ ctx' n, parse_inflection ctx h_s h_e nodes output tn
          = some (ctx', output, n)
        ∧ countMsg ctx.warnings .duplicate
            + (((beforeHeading nodes).filter (inflMatches l tn)).length - 1)
          ≤ countMsg ctx'.warnings .duplicate)
    ∧ (∀ (ctx : Context) (l : Language) (x : Option Template)
      (nm : List Node) (ps : List Parameter) (s e : Nat) (rest : List Node)
      (tn : String),
      ctx.language = some l →
      inflMatches l tn (Node.template nm ps s e) = true →
      ∃ c i k,
        infl_loop (add_warning ctx s e .duplicate) rest (some none) tn
          = some (c, i, k)
        ∧ infl_loop ctx (Node.template nm ps s e :: rest) (some x) tn
          = some (c, i, k + 1)) := by
  constructor
  · intro ctx l h_s h_e nodes output tn hl hm
    obtain ⟨ctx', k, hr, hc⟩ := infl_loop_first nodes ctx tn l hl hm
    exact ⟨ctx', k, by simp only [parse_inflection, hr], hc⟩
  · intro ctx l x nm ps s e rest tn hl hmatch
    rcases hpt : parse_text nm with _ | n
    · simp [inflMatches, hpt] at hmatch
    · simp only [inflMatches, hpt, Bool.and_eq_true] at hmatch
      obtain ⟨⟨c, i, k⟩, hr, _⟩ := infl_loop_ok
        (add_warning ctx s e .duplicate) rest (some none) tn
        (by simp [add_warning, hl])
      refine ⟨c, i, k, hr, ?_⟩
      simp only [infl_loop, hpt, hl]
      rw [if_pos hmatch]
      simp only [Option.isSome_some, if_true, hr]

/-- Witness for C3: a run of four nodes with three matching conjugation
templates and an interleaved plain-text node, applying both parts of the
amended theorem. -/
theorem c3_amended_witness :
    (∃ ctx' n,
      parse_inflection ⟨some .en, [], "t"⟩ 1 6
        [Node.template [.text "en-conj-x" 11 20] [] 9 22,
         Node.text "filler" 23 29,
         Node.template [.text "en-conj-y" 31 40] [] 29 42,
         Node.template [.text "en-conj-z" 51 60] [] 49 62] [] "-conj-"
        = some (ctx', [], n)
      ∧ countMsg (Context.mk (some .en) [] "t").warnings .duplicate
          + (((beforeHeading
                [Node.template [.text "en-conj-x" 11 20] [] 9 22,
                 Node.text "filler" 23 29,
                 Node.template [.text "en-conj-y" 31 40] [] 29 42,
                 Node.template [.text "en-conj-z" 51 60] [] 49 62]).filter
              (inflMatches .en "-conj-")).length - 1)
        ≤ countMsg ctx'.warnings .duplicate)
    ∧ (∃ c i k,
      infl_loop (add_warning ⟨some .en, [], "t"⟩ 29 42 .duplicate)
          [Node.template [.text "en-conj-z" 51 60] [] 49 62] (some none)
          "-conj-"
        = some (c, i, k)
      ∧ infl_loop ⟨some .en, [], "t"⟩
          [Node.template [.text "en-conj-y" 31 40] [] 29 42,
           Node.template [.text "en-conj-z" 51 60] [] 49 62]
          (some none) "-conj-"
        = some (c, i, k + 1)) :=
  ⟨c3_amended_thm.1 ⟨some .en, [], "t"⟩ .en 1 6
      [Node.template [.text "en-conj-x" 11 20] [] 9 22,
       Node.text "filler" 23 29,
       Node.template [.text "en-conj-y" 31 40] [] 29 42,
       Node.template [.text "en-conj-z" 51 60] [] 49 62] [] "-conj-" rfl
      (by decide),
    c3_amended_thm.2 ⟨some .en, [], "t"⟩ .en none [.text "en-conj-y" 31 40]
      [] 29 42 [Node.template [.text "en-conj-z" 51 60] [] 49 62] "-conj-"
      rfl (by decide)⟩

/-- C4 counterexample: a list item with two nested ordered lists ends with
an empty sub-definition list — the sub-definitions recorded from the first
nested list are discarded, not kept — and one Duplicate warning. -/
theorem c4_counterexample :
    (parse_definition ⟨some .en, [], "w"⟩
        (.mk [.text "a" 1 2,
              .orderedList [.mk [.text "b" 4 5] 3 5] 3 5,
              .orderedList [] 6 8] 0 8)).map
      (fun r => (r.2.definitions.length, countMsg r.1.warnings .duplicate))
      = some (0, 1) := by
  simp +decide [parse_definition, go_def, def_items, add_warning, countMsg]

/-- C4 amended: a second nested ordered list in the same item emits exactly
one Duplicate warning and resets the sub-definition slot to the empty list,
discarding the sub-definitions recorded from the first nested list as
well. -/
theorem c4_amended_thm :
    (∀ (ctx : Context) (items : List ListItem) (s e : Nat)
      (rest : List Node) (defn : List Flowing) (ds : List Definition)
      (ex q : Nat),
      go_def ctx (Node.orderedList items s e :: rest) defn (some ds) ex q
        = go_def (add_warning ctx s e .duplicate) rest defn (some []) ex q)
    ∧ (parse_definition ⟨some .de, [], "x"⟩
          (.mk [.text "c" 11 12,
                .orderedList [.mk [.text "d" 14 15] 13 15] 13 15,
                .orderedList [] 16 18] 10 18)).map
        (fun r => (r.2.definitions, countMsg r.1.warnings .duplicate))
        = some ([], 1) := by
  constructor
  · intro ctx items s e rest defn ds ex q
    simp only [go_def, Option.isSome_some, if_true]
  · simp +decide [parse_definition, go_def, def_items, add_warning, countMsg,
      Definition.definitions]

/-- C5 counterexample: a part-of-speech section whose Usage notes
subsection is present but yields no recognized content produces a
`PosEntry` whose `usage_notes` field is absent (`none`), not
present-but-empty, with one SectionEmpty warning for that subsection. -/
theorem c5_counterexample :
    (parse_pos ⟨some .en, [], "w"⟩ 0 3
        [.orderedList [.mk [.text "d" 23 24] 22 24] 22 24,
         .heading 4 [.text "Usage notes" 6 17] 4 21] [] 4 .noun).map
      (fun r => (r.2.1.map (fun en => en.usage_notes),
                 countMsg r.1.warnings .sectionEmpty))
      = some ([none], 1) := by
  simp +decide [parse_pos, pos_phase1, pos_phase2, pos_step, def_items,
    parse_definition, go_def, parse_usage_notes, un_loop, parse_text,
    add_warning, countMsg]

/-- C5 amended: a Usage notes subsection that yields no content sets the
internal slot to present-but-empty and emits one SectionEmpty warning, but
the finished `PosEntry.usage_notes` field is absent in that case just as
when the subsection is missing; the two cases are distinguished only by
the warning. -/
theorem c5_amended_thm :
    (∀ (ctx : Context) (h_s h_e : Nat) (nodes : List Node),
      (un_loop ctx nodes []).2.1 = [] →
      parse_usage_notes ctx h_s h_e nodes none
        = (add_warning (un_loop ctx nodes []).1 h_s h_e .sectionEmpty,
           some none, (un_loop ctx nodes []).2.2))
    ∧ (parse_pos ⟨some .fr, [], "y"⟩ 0 3
          [.orderedList [.mk [.text "d" 33 34] 32 34] 32 34,
           .heading 4 [.text "Usage notes" 36 47] 35 51] [] 4 .verb).map
        (fun r => (r.2.1.map (fun en => en.usage_notes),
                   countMsg r.1.warnings .sectionEmpty))
        = some ([none], 1)
    ∧ (parse_pos ⟨some .fr, [], "y"⟩ 0 3
          [.orderedList [.mk [.text "d" 33 34] 32 34] 32 34] [] 4 .verb).map
        (fun r => (r.2.1.map (fun en => en.usage_notes),
                   countMsg r.1.warnings .sectionEmpty))
        = some ([none], 0) := by
  refine ⟨?_, ?_, ?_⟩
  · intro ctx h_s h_e nodes hempty
    simp [parse_usage_notes, hempty]
  · simp +decide [parse_pos, pos_phase1, pos_phase2, pos_step, def_items,
      parse_definition, go_def, parse_usage_notes, un_loop, parse_text,
      add_warning, countMsg]
  · simp +decide [parse_pos, pos_phase1, pos_phase2, pos_step, def_items,
      parse_definition, go_def, parse_usage_notes, un_loop, parse_text,
      add_warning, countMsg]

/-- Witness for C5 at a concrete empty Usage notes body. -/
theorem c5_amended_witness :
    parse_usage_notes ⟨some .en, [], "w"⟩ 2 9 [] none
      = (add_warning (un_loop ⟨some .en, [], "w"⟩ [] []).1 2 9 .sectionEmpty,
         some none, (un_loop ⟨some .en, [], "w"⟩ [] []).2.2) :=
  c5_amended_thm.1 ⟨some .en, [], "w"⟩ 2 9 [] rfl

end Wikt
